import Mathlib

/-!
# SwiftStreamManager: the Go status store (`pkg/gobinary/gobinary.go`)

A shallow embedding of the `Store` of `gobinary.go` and of the code that drives
it: the registry operations `newItem`, `deleteItem`, `randomiseAllItems`,
`sendAllItems`, the additional-data check and the request switch of the receive
handler, and the ticker loop of `startSendClient`.

Modelling conventions.

* `int64` values are `Int`s; the only arithmetic on them (`+= 1`) is wrapped
  with `wrapInt64`.
* `float64` values are rationals (`ℚ`). The two library operations applied to
  them, the product by `100` and `fmt.Sprintf("%.2f %%", _)`, are fields of
  `Lib`.
* A Go `map[int64]Status` is a list of key/value pairs. Go maps have unique keys
  (`MapOK`). The order in which `range` visits a map is not specified by the
  language, so every `range` loop takes the sequence of keys visited as an
  argument; such a sequence is a permutation of the keys of the map.
* The mutex is held for the whole body of each registry operation, so each
  operation is one atomic state transition.
* Calls into `keyexchange`, `pubsub` and `math/rand` are arguments: the result
  of the encoder, the result of the write, the random draws, `AuthTimestamp`.
-/

set_option linter.dupNamespace false

namespace GoBinary

/-! ## Machine integers -/

/-- Two's complement wrap-around of a mathematical integer into `int64`. -/
def wrapInt64 (x : Int) : Int := (x + 2 ^ 63) % 2 ^ 64 - 2 ^ 63

/-! ## Data model -/

/-- The Go struct `Status`. `Error` is a Go `error` (`none` is `nil`). -/
structure Status where
  ID : Int
  Error : Option String
  Name : String
  Status : String
  Progress : ℚ
deriving DecidableEq

/-- A value decoded from JSON into an `interface{}`. -/
inductive Any where
  | null : Any
  | bool : Bool → Any
  | number : ℚ → Any
  | string : String → Any
  | array : List Any → Any
  | object : List (String × Any) → Any

/-- The Go struct `WSRequest` (the field `Type` is spelled `Typ`). -/
structure WSRequest where
  Typ : String
  ID : Any
  Data : Any

/-- A Go `map[int64]Status`. -/
abbrev StatusMap := List (Int × Status)

/-- The keys of a map, in the order of the representation. -/
def mapKeys (m : StatusMap) : List Int := m.map Prod.fst

/-- The values of a map, in the order of the representation. -/
def mapValues (m : StatusMap) : List Status := m.map Prod.snd

/-- The representation invariant of a Go map: no key occurs twice. -/
def MapOK (m : StatusMap) : Prop := (mapKeys m).Nodup

instance (m : StatusMap) : Decidable (MapOK m) := by
  unfold MapOK; infer_instance

/-- The map read `v, ok := m[k]`. -/
def mapGet : StatusMap → Int → Option Status
  | [], _ => none
  | (k', v) :: rest, k => if k' = k then some v else mapGet rest k

/-- The map write `m[k] = v`: overwrite the binding of `k` when there is one, add
one otherwise. -/
def mapSet : StatusMap → Int → Status → StatusMap
  | [], k, v => [(k, v)]
  | (k', v') :: rest, k, v =>
    if k' = k then (k, v) :: rest else (k', v') :: mapSet rest k v

/-- The builtin `delete(m, k)`. -/
def mapDelete (m : StatusMap) (k : Int) : StatusMap := m.filter (fun p => decide (p.1 ≠ k))

/-- The Go struct `Store` (without the mutex and the `keyexchangeStore` pointer). -/
structure Store where
  m : StatusMap
  maxID : Int
  isUpdateRequired : Bool
  wsHost : String
  isSecure : Bool
  authToken : String
  wsPath : String
  sendRoom : String
  receiveRoom : String
  additionalDataTimestamp : Int

/-- The library operations on `float64` used by the store. -/
structure Lib where
  /-- The `float64` product `x * y`. -/
  mulFloat64 : ℚ → ℚ → ℚ
  /-- The call `fmt.Sprintf("%.2f %%", x)`. -/
  sprintfPercent : ℚ → String

/-- The Go function `NewStore`. -/
def NewStore (wsHost : String) (isSecure : Bool) (authToken : String) (wsPath : String)
    (sendRoom : String) (receiveRoom : String) (additionalDataTimestamp : Int) : Store :=
  { m := []
    maxID := 0
    isUpdateRequired := true
    wsHost := wsHost
    isSecure := isSecure
    authToken := authToken
    wsPath := wsPath
    sendRoom := sendRoom
    receiveRoom := receiveRoom
    additionalDataTimestamp := additionalDataTimestamp }

/-! ## Registry operations -/

/-- The call `fmt.Sprintf("entry %d", id)`. -/
def entryName (id : Int) : String := "entry " ++ toString id

/-- The method `Store.newItem`. -/
def newItem (L : Lib) (s : Store) : Store :=
  let maxID := wrapInt64 (s.maxID + 1)
  { s with
    isUpdateRequired := true
    maxID := maxID
    m := mapSet s.m maxID
      { ID := maxID
        Error := none
        Name := entryName maxID
        Status := L.sprintfPercent (L.mulFloat64 0 100)
        Progress := 0 } }

/-- The body of the `range` loop of `randomiseAllItems`, run over the keys in the
order `order`; `j` counts the calls of `rand.Float64` made so far and `rnd j` is
the result of call number `j`. -/
def randomiseLoop (L : Lib) (rnd : Nat → ℚ) : List Int → Nat → StatusMap → StatusMap
  | [], _, m => m
  | k :: ks, j, m =>
    match mapGet m k with
    | none => randomiseLoop L rnd ks j m
    | some sg =>
      let newProgress := rnd j
      let sg1 : Status :=
        { sg with
          Progress := newProgress
          Status := L.sprintfPercent (L.mulFloat64 newProgress 100) }
      randomiseLoop L rnd ks (j + 1) (mapSet m sg1.ID sg1)

/-- The method `Store.randomiseAllItems`. -/
def randomiseAllItems (L : Lib) (order : List Int) (rnd : Nat → ℚ) (s : Store) : Store :=
  { s with
    isUpdateRequired := true
    m := randomiseLoop L rnd order 0 s.m }

/-- The `range` loop of `sendAllItems`: append the record of every key visited. -/
def collectItems (m : StatusMap) : List Int → List Status → List Status
  | [], v => v
  | k :: ks, v =>
    match mapGet m k with
    | none => collectItems m ks v
    | some sg => collectItems m ks (v ++ [sg])

/-- What the world answers to one call of `sendAllItems`: the order in which
`range` visits the map, the result of `EncodeJSONAndEncryptToJSON` (`none` is an
error) and whether `WriteTextMessage` succeeds. -/
structure SendEnv where
  order : List Int
  encode : List Status → Option String
  writeOk : String → Bool

/-- The error returned by `sendAllItems`. -/
inductive SendError where
  | encode : SendError
  | write : SendError
deriving DecidableEq

/-- The effect of one call of `sendAllItems`: the store after the call, the slice
`v` handed to the encoder (when one was built), the payload handed to
`WriteTextMessage` (when it was called) and the error returned. -/
structure SendResult where
  s : Store
  snapshot : Option (List Status)
  written : Option String
  err : Option SendError

/-- The method `Store.sendAllItems`. -/
def sendAllItems (env : SendEnv) (s : Store) : SendResult :=
  if !s.isUpdateRequired then
    { s := s, snapshot := none, written := none, err := none }
  else
    let s1 : Store := { s with isUpdateRequired := false }
    let v := collectItems s1.m env.order []
    match env.encode v with
    | none => { s := s1, snapshot := some v, written := none, err := some SendError.encode }
    | some b =>
      { s := s1
        snapshot := some v
        written := some b
        err := if env.writeOk b then none else some SendError.write }

/-- The method `Store.deleteItem`: the store after the call and the result. -/
def deleteItem (s : Store) (itemID : Int) : Store × Bool :=
  let s1 : Store := { s with isUpdateRequired := true }
  match mapGet s1.m itemID with
  | none => (s1, false)
  | some _ => ({ s1 with m := mapDelete s1.m itemID }, true)

/-! ## The receive handler -/

/-- The digit loop of `strconv.ParseUint(s, 10, 64)`: every byte has to be a
decimal digit; `acc` is the value read so far. -/
def parseDigits : List Char → Nat → Option Nat
  | [], acc => some acc
  | c :: cs, acc =>
    if '0' ≤ c ∧ c ≤ '9' then parseDigits cs (acc * 10 + (c.toNat - '0'.toNat)) else none

/-- The call `strconv.ParseInt(s, 10, 64)`; `none` is a non-nil error (a syntax
error or a range error). -/
def ParseInt (s : String) : Option Int :=
  match s.data with
  | [] => none
  | c :: cs =>
    let neg : Bool := decide (c = '-')
    let ds : List Char := if c = '+' ∨ c = '-' then cs else c :: cs
    match ds with
    | [] => none
    | _ :: _ =>
      match parseDigits ds 0 with
      | none => none
      | some un =>
        if neg = false ∧ 2 ^ 63 ≤ un then none
        else if neg = true ∧ 2 ^ 63 < un then none
        else some (if neg then -(un : Int) else (un : Int))

/-- The errors returned by the message handler after the request is decoded. -/
inductive HandlerError where
  | notAString : HandlerError
  | parseInt : String → HandlerError
  | doesNotExist : Int → HandlerError
deriving DecidableEq

/-- The registry methods the message handler calls. -/
inductive RegistryCall where
  | newItem : RegistryCall
  | deleteItem : Int → RegistryCall
deriving DecidableEq

/-- The effect of the `switch request.Type` of the message handler: the store
after it, the registry methods called, in order, and the error returned. -/
structure HandleResult where
  s : Store
  calls : List RegistryCall
  err : Option HandlerError

/-- The `switch request.Type` of the message handler of `startReceiveClient`. -/
def handleRequest (L : Lib) (s : Store) (request : WSRequest) : HandleResult :=
  if request.Typ = "addItem" then
    { s := newItem L s, calls := [RegistryCall.newItem], err := none }
  else if request.Typ = "deleteItem" then
    match request.ID with
    | Any.string itemString =>
      match ParseInt itemString with
      | none => { s := s, calls := [], err := some (HandlerError.parseInt itemString) }
      | some itemID =>
        let r := deleteItem s itemID
        if !r.2 then
          { s := r.1
            calls := [RegistryCall.deleteItem itemID]
            err := some (HandlerError.doesNotExist itemID) }
        else
          { s := r.1, calls := [RegistryCall.deleteItem itemID], err := none }
    | _ => { s := s, calls := [], err := some HandlerError.notAString }
  else
    { s := s, calls := [], err := none }

/-- The additional-data check closure of the message handler. `auth` is
`keyexchange.AuthTimestamp`: given the additional data and the current
timestamp it returns an error or the pair `(ok, i)`. The result is the store
after the check and what the closure returns. -/
def adCheck {AD : Type} (auth : AD → Int → Except String (Bool × Int)) (s : Store)
    (additionalData : AD) : Store × Except String Bool :=
  match auth additionalData s.additionalDataTimestamp with
  | Except.error e => (s, Except.error e)
  | Except.ok (ok, i) =>
    if !ok then (s, Except.ok false)
    else ({ s with additionalDataTimestamp := i }, Except.ok true)

/-- Whether a result of the check admits the message. -/
def admits : Except String Bool → Bool
  | Except.ok true => true
  | _ => false

/-- The store after the check has been run on each additional data of a
sequence, in order. -/
def adCheckAll {AD : Type} (auth : AD → Int → Except String (Bool × Int)) :
    Store → List AD → Store
  | s, [] => s
  | s, ad :: rest => adCheckAll auth (adCheck auth s ad).1 rest

/-- The additional data of a sequence that the check admits, in order. -/
def admittedData {AD : Type} (auth : AD → Int → Except String (Bool × Int)) :
    Store → List AD → List AD
  | _, [] => []
  | s, ad :: rest =>
    if admits (adCheck auth s ad).2 then ad :: admittedData auth (adCheck auth s ad).1 rest
    else admittedData auth (adCheck auth s ad).1 rest

/-- The assumption on `keyexchange.AuthTimestamp`: additional data that carries
no timestamp is an error; additional data that carries the timestamp `t` is
`ok` exactly when `t` is strictly greater than the current value, and then `t`
is what is returned. -/
def AuthSpec {AD : Type} (carried : AD → Option Int)
    (auth : AD → Int → Except String (Bool × Int)) : Prop :=
  ∀ ad cur,
    match carried ad with
    | none => ∃ e, auth ad cur = Except.error e
    | some t => ∃ i, auth ad cur = Except.ok (decide (cur < t), i) ∧ (cur < t → i = t)

/-! ## The send loop -/

/-- What the world answers during one tick of the send loop. -/
structure TickEnv where
  order : List Int
  rnd : Nat → ℚ
  send : SendEnv

/-- The registry methods the send loop calls. -/
inductive LoopCall where
  | randomiseAllItems : LoopCall
  | sendAllItems : LoopCall
deriving DecidableEq

/-- The state of the ticker loop of `startSendClient`: the local `updateCount`,
the store, and for every tick processed the registry methods it called, in
order. -/
structure LoopState where
  updateCount : Int
  s : Store
  log : List (List LoopCall)

/-- The state of the send loop before the first tick. -/
def loopStart (s : Store) : LoopState := { updateCount := 0, s := s, log := [] }

/-- The `case <-ticker.C` branch of the loop of `startSendClient`. -/
def tick (L : Lib) (st : LoopState) (env : TickEnv) : LoopState :=
  let updateCount := wrapInt64 (st.updateCount + 1)
  if updateCount = 5 then
    let s1 := randomiseAllItems L env.order env.rnd st.s
    { updateCount := 0
      s := (sendAllItems env.send s1).s
      log := st.log ++ [[LoopCall.randomiseAllItems, LoopCall.sendAllItems]] }
  else
    { updateCount := updateCount
      s := (sendAllItems env.send st.s).s
      log := st.log ++ [[LoopCall.sendAllItems]] }

/-- The send loop after the ticks of `envs`. -/
def runTicks (L : Lib) (st : LoopState) (envs : List TickEnv) : LoopState :=
  envs.foldl (tick L) st

/-- The number of calls of `randomiseAllItems` in a log. -/
def randomiseCount (log : List (List LoopCall)) : Nat :=
  (log.map (fun calls => calls.count LoopCall.randomiseAllItems)).sum

/-! ## Histories of registry calls -/

/-- One call of a registry method, with what the world answers to it. -/
inductive Op where
  | newItem : Op
  | deleteItem : Int → Op
  | randomiseAllItems : List Int → (Nat → ℚ) → Op
  | sendAllItems : SendEnv → Op

/-- The store after one call. -/
def applyOp (L : Lib) (s : Store) : Op → Store
  | Op.newItem => newItem L s
  | Op.deleteItem itemID => (deleteItem s itemID).1
  | Op.randomiseAllItems order rnd => randomiseAllItems L order rnd s
  | Op.sendAllItems env => (sendAllItems env s).s

/-- The store after a sequence of calls. -/
def applyOps (L : Lib) (s : Store) (ops : List Op) : Store := ops.foldl (applyOp L) s

/-- The ids assigned by the `newItem` calls of a sequence of calls, in order: the
key under which each call stores its record. -/
def assignedIDs (L : Lib) : Store → List Op → List Int
  | _, [] => []
  | s, Op.newItem :: ops => (newItem L s).maxID :: assignedIDs L (newItem L s) ops
  | s, op :: ops => assignedIDs L (applyOp L s op) ops

/-- The number of `newItem` calls in a sequence of calls. -/
def newItemCount : List Op → Nat
  | [] => 0
  | Op.newItem :: ops => newItemCount ops + 1
  | _ :: ops => newItemCount ops

/-- The stores a program can reach: `NewStore` followed by registry calls, where
every `range` loop visits the keys of the map in some order. -/
inductive Reachable (L : Lib) : Store → Prop where
  | NewStore (wsHost : String) (isSecure : Bool) (authToken wsPath sendRoom receiveRoom : String)
      (additionalDataTimestamp : Int) :
      Reachable L
        (NewStore wsHost isSecure authToken wsPath sendRoom receiveRoom additionalDataTimestamp)
  | newItem {s : Store} : Reachable L s → Reachable L (newItem L s)
  | deleteItem {s : Store} (itemID : Int) : Reachable L s → Reachable L (deleteItem s itemID).1
  | randomiseAllItems {s : Store} (order : List Int) (rnd : Nat → ℚ) :
      Reachable L s → order.Perm (mapKeys s.m) → Reachable L (randomiseAllItems L order rnd s)
  | sendAllItems {s : Store} (env : SendEnv) :
      Reachable L s → env.order.Perm (mapKeys s.m) → Reachable L (sendAllItems env s).s

/-- A mutating registry call. -/
inductive Mutation where
  | newItem : Mutation
  | deleteItem : Int → Mutation
  | randomiseAllItems : List Int → (Nat → ℚ) → Mutation

/-- The store after a mutating call. -/
def applyMutation (L : Lib) (s : Store) : Mutation → Store
  | Mutation.newItem => newItem L s
  | Mutation.deleteItem itemID => (deleteItem s itemID).1
  | Mutation.randomiseAllItems order rnd => randomiseAllItems L order rnd s

/-- The results of consecutive `sendAllItems` calls with nothing in between. -/
def sendAllItemsRepeated : Store → List SendEnv → List SendResult
  | _, [] => []
  | s, env :: envs => sendAllItems env s :: sendAllItemsRepeated (sendAllItems env s).s envs

/-! ## Auxiliary definitions for the proofs -/

/-- Every record is stored under its own `ID`. -/
def KeyIsID (m : StatusMap) : Prop := ∀ k sg, mapGet m k = some sg → sg.ID = k

/-- The record written back by one iteration of the loop of `randomiseAllItems`. -/
def randomised (L : Lib) (sg : Status) (newProgress : ℚ) : Status :=
  { sg with
    Progress := newProgress
    Status := L.sprintfPercent (L.mulFloat64 newProgress 100) }

/-- The registry after `n` calls of `newItem`: the counter is `n`, every record
is stored under its own `ID`, and every key is one of `1, ..., n`. -/
def CounterInv (s : Store) (n : Nat) : Prop :=
  s.maxID = (n : Int) ∧ KeyIsID s.m ∧ ∀ k sg, mapGet s.m k = some sg → 1 ≤ k ∧ k ≤ (n : Int)

/-- The record that `newItem` stores for the id `id`. -/
def newRecord (L : Lib) (id : Int) : Status :=
  { ID := id
    Error := none
    Name := entryName id
    Status := L.sprintfPercent (L.mulFloat64 0 100)
    Progress := 0 }

/-- The registry calls made by the ticks of `envs`, in order, when the first of
them is tick number `i` since the counter was last zero at `i = 0`: a
`randomiseAllItems` call on the ticks whose number is a multiple of 5, and a
`sendAllItems` call on every tick. -/
def loopOps : Nat → List TickEnv → List Op
  | _, [] => []
  | i, env :: envs =>
    (if i % 5 = 0 then [Op.randomiseAllItems env.order env.rnd, Op.sendAllItems env.send]
      else [Op.sendAllItems env.send]) ++ loopOps (i + 1) envs

/-! ## Examples -/

/-- Rounding of a rational to the nearest integer, ties to even. -/
def roundHalfEven (x : ℚ) : Int :=
  let f := Int.floor x
  if x - f < 1 / 2 then f
  else if 1 / 2 < x - f then f + 1
  else if f % 2 = 0 then f else f + 1

/-- A rendering of a rational in the format `%.2f %%`. -/
def renderPercent (x : ℚ) : String :=
  let n := (roundHalfEven (|x| * 100)).toNat
  (if x < 0 then "-" else "") ++ toString (n / 100) ++ "."
    ++ (if n % 100 < 10 then "0" else "") ++ toString (n % 100) ++ " %"

/-- Rounding of a rational to the nearest `float64`, ties to even, for values in
the range of the normal numbers: 53 significant bits. -/
def roundFloat64 (x : ℚ) : ℚ :=
  if x = 0 then 0
  else (roundHalfEven (x / (2 : ℚ) ^ (Int.log 2 |x| - 52)) : ℚ) * (2 : ℚ) ^ (Int.log 2 |x| - 52)

/-- A library for the examples: the product rounded to `float64` and the
two-decimals rendering. -/
def exampleLib : Lib :=
  { mulFloat64 := fun x y => roundFloat64 (x * y)
    sprintfPercent := renderPercent }

/-- A send environment for the examples: the encoder and the write succeed. -/
def exampleEnv (order : List Int) : SendEnv :=
  { order := order, encode := fun _ => some "payload", writeOk := fun _ => true }

/-- A send environment for the examples: the encoder fails. -/
def encodeFailsEnv (order : List Int) : SendEnv :=
  { order := order, encode := fun _ => none, writeOk := fun _ => true }

/-- A send environment for the examples: the write fails. -/
def writeFailsEnv (order : List Int) : SendEnv :=
  { order := order, encode := fun _ => some "payload", writeOk := fun _ => false }

/-- An `AuthTimestamp` for the examples, on additional data that is either
malformed (`none`) or a timestamp. -/
def exampleAuth : Option Int → Int → Except String (Bool × Int)
  | none, _ => Except.error "malformed additional data"
  | some t, cur => Except.ok (decide (cur < t), t)

/-- A request of the examples: delete the record 2. -/
def exampleDeleteRequest : WSRequest :=
  { Typ := "deleteItem", ID := Any.string "2", Data := Any.null }

/-- Ticks of the examples: `range` visits key 2 before key 1, the draws are
`1/2, 1/3, ...`, the encoder and the write succeed. -/
def exampleTicks (n : Nat) : List TickEnv :=
  List.replicate n
    { order := [2, 1]
      rnd := fun j => 1 / ((j : ℚ) + 2)
      send := exampleEnv [2, 1] }

/-- The store of the examples, as built by `main`. -/
def exampleStore : Store := NewStore "localhost:8000" false "token" "/ws" "0" "1" 100

/-- A history of the examples: the record 1 is created and deleted before the
second `newItem` call. -/
def exampleOps : List Op :=
  [Op.newItem, Op.deleteItem 1, Op.sendAllItems (exampleEnv []), Op.newItem]

/-- The example store after the first `sendAllItems`: empty and not dirty. -/
def exampleCleanStore : Store := (sendAllItems (exampleEnv []) exampleStore).s

/-- The example store after two `newItem` calls. -/
def exampleTwoItems : Store := newItem exampleLib (newItem exampleLib exampleStore)

example : wrapInt64 (2 ^ 63 - 1 + 1) = -2 ^ 63 := by decide
example : ParseInt "12" = some 12 := by decide
example : ParseInt "-9223372036854775808" = some (-2 ^ 63) := by decide
example : ParseInt "9223372036854775808" = none := by decide
example : ParseInt "+" = none := by decide
example : ParseInt "1_0" = none := by decide
example : ParseInt "" = none := by decide

/-! ## Lemmas on maps -/

theorem mapGet_eq_none_iff (m : StatusMap) (k : Int) : mapGet m k = none ↔ k ∉ mapKeys m := by
  induction m with
  | nil => simp [mapGet, mapKeys]
  | cons p rest ih =>
    obtain ⟨k', v⟩ := p
    by_cases h : k' = k
    · simp [mapGet, mapKeys, h]
    · have h2 : ¬ k = k' := fun e => h e.symm
      simpa [mapGet, mapKeys, h, h2] using ih

theorem mapGet_mapSet_self (m : StatusMap) (k : Int) (v : Status) :
    mapGet (mapSet m k v) k = some v := by
  induction m with
  | nil => simp [mapSet, mapGet]
  | cons p rest ih =>
    obtain ⟨k', v'⟩ := p
    by_cases h : k' = k
    · simp [mapSet, mapGet, h]
    · simp [mapSet, mapGet, h, ih]

theorem mapGet_mapSet_ne (m : StatusMap) (k k2 : Int) (v : Status) (hne : k2 ≠ k) :
    mapGet (mapSet m k v) k2 = mapGet m k2 := by
  induction m with
  | nil => simp [mapSet, mapGet, Ne.symm hne]
  | cons p rest ih =>
    obtain ⟨k', v'⟩ := p
    by_cases h : k' = k
    · subst h
      simp [mapSet, mapGet, Ne.symm hne]
    · by_cases h2 : k' = k2
      · subst h2
        simp [mapSet, mapGet, h]
      · simp [mapSet, mapGet, h, h2, ih]

theorem mapKeys_mapSet_of_mem (m : StatusMap) (k : Int) (v : Status) (h : k ∈ mapKeys m) :
    mapKeys (mapSet m k v) = mapKeys m := by
  induction m with
  | nil => simp [mapKeys] at h
  | cons p rest ih =>
    obtain ⟨k', v'⟩ := p
    by_cases hk : k' = k
    · simp [mapSet, mapKeys, hk]
    · have h2 : k ∈ mapKeys rest := by
        simp only [mapKeys, List.map_cons, List.mem_cons] at h
        rcases h with h | h
        · exact absurd h.symm hk
        · exact h
      have := ih h2
      simp only [mapKeys] at this
      simp [mapSet, mapKeys, hk, this]

theorem mapKeys_mapSet_of_not_mem (m : StatusMap) (k : Int) (v : Status) (h : k ∉ mapKeys m) :
    mapKeys (mapSet m k v) = mapKeys m ++ [k] := by
  induction m with
  | nil => simp [mapSet, mapKeys]
  | cons p rest ih =>
    obtain ⟨k', v'⟩ := p
    simp only [mapKeys, List.map_cons, List.mem_cons, not_or] at h
    have hk : ¬ k' = k := fun e => h.1 e.symm
    have := ih h.2
    simp only [mapKeys] at this
    simp [mapSet, mapKeys, hk, this]

theorem mapOK_mapSet (m : StatusMap) (k : Int) (v : Status) (h : MapOK m) :
    MapOK (mapSet m k v) := by
  unfold MapOK at *
  by_cases hk : k ∈ mapKeys m
  · rw [mapKeys_mapSet_of_mem m k v hk]; exact h
  · rw [mapKeys_mapSet_of_not_mem m k v hk]
    exact List.Nodup.append h (List.nodup_singleton k) (by simpa using hk)

theorem mapGet_mapDelete_self (m : StatusMap) (k : Int) : mapGet (mapDelete m k) k = none := by
  rw [mapGet_eq_none_iff]
  simp [mapKeys, mapDelete, List.mem_filter]

theorem mapGet_mapDelete_ne (m : StatusMap) (k k2 : Int) (hne : k2 ≠ k) :
    mapGet (mapDelete m k) k2 = mapGet m k2 := by
  induction m with
  | nil => simp [mapDelete, mapGet]
  | cons p rest ih =>
    obtain ⟨k', v'⟩ := p
    have ih2 : mapGet (List.filter (fun p => !decide (p.1 = k)) rest) k2 = mapGet rest k2 := by
      simpa [mapDelete] using ih
    by_cases h : k' = k
    · subst h
      simp [mapDelete, mapGet, List.filter_cons, Ne.symm hne, ih2]
    · simp [mapDelete, mapGet, List.filter_cons, h, ih2]

theorem mapDelete_of_not_mem (m : StatusMap) (k : Int) (h : mapGet m k = none) :
    mapDelete m k = m := by
  rw [mapGet_eq_none_iff] at h
  unfold mapDelete
  rw [List.filter_eq_self]
  intro p hp
  have : p.1 ∈ mapKeys m := List.mem_map_of_mem Prod.fst hp
  have hne : p.1 ≠ k := fun e => h (e ▸ this)
  simpa using hne

theorem mapOK_mapDelete (m : StatusMap) (k : Int) (h : MapOK m) : MapOK (mapDelete m k) := by
  unfold MapOK mapKeys mapDelete at *
  exact List.Nodup.sublist (List.Sublist.map _ (List.filter_sublist _)) h

theorem collectItems_eq (m : StatusMap) (order : List Int) (v : List Status) :
    collectItems m order v = v ++ order.filterMap (mapGet m) := by
  induction order generalizing v with
  | nil => simp [collectItems]
  | cons k ks ih =>
    cases hk : mapGet m k with
    | none => simp [collectItems, hk, ih, List.filterMap_cons]
    | some sg => simp [collectItems, hk, ih, List.filterMap_cons]

theorem filterMap_mapGet_keys (m : StatusMap) (h : MapOK m) :
    (mapKeys m).filterMap (mapGet m) = mapValues m := by
  induction m with
  | nil => simp [mapKeys, mapValues]
  | cons p rest ih =>
    obtain ⟨k, v⟩ := p
    unfold MapOK at h ih
    simp only [mapKeys, List.map_cons, List.nodup_cons] at h
    have hrest : (List.map Prod.fst rest).filterMap (mapGet ((k, v) :: rest))
        = (List.map Prod.fst rest).filterMap (mapGet rest) := by
      apply List.filterMap_congr
      intro k2 hk2
      have : ¬ k = k2 := fun e => h.1 (e ▸ hk2)
      simp [mapGet, this]
    have ih2 := ih h.2
    simp only [mapKeys, mapValues] at ih2
    show List.filterMap (mapGet ((k, v) :: rest)) (k :: List.map Prod.fst rest)
      = v :: List.map Prod.snd rest
    have hk : mapGet ((k, v) :: rest) k = some v := by simp [mapGet]
    rw [List.filterMap_cons_some hk, hrest, ih2]

/-- With the keys visited in an order that is a permutation of the keys of the
map, the loop of `sendAllItems` collects every record of the map exactly once. -/
theorem collectItems_perm (m : StatusMap) (order : List Int) (h : MapOK m)
    (horder : order.Perm (mapKeys m)) : (collectItems m order []).Perm (mapValues m) := by
  rw [collectItems_eq, List.nil_append, ← filterMap_mapGet_keys m h]
  exact List.Perm.filterMap _ horder

theorem mapGet_mapSet (m : StatusMap) (k k2 : Int) (v : Status) :
    mapGet (mapSet m k v) k2 = if k2 = k then some v else mapGet m k2 := by
  by_cases h : k2 = k
  · subst h; simp [mapGet_mapSet_self]
  · simp [h, mapGet_mapSet_ne m k k2 v h]

theorem mapGet_mapDelete (m : StatusMap) (k k2 : Int) :
    mapGet (mapDelete m k) k2 = if k2 = k then none else mapGet m k2 := by
  by_cases h : k2 = k
  · subst h; simp [mapGet_mapDelete_self]
  · simp [h, mapGet_mapDelete_ne m k k2 h]

/-! ## Invariants of the registry -/

theorem mapOK_randomiseLoop (L : Lib) (rnd : Nat → ℚ) (order : List Int) (j : Nat)
    (m : StatusMap) (h : MapOK m) : MapOK (randomiseLoop L rnd order j m) := by
  induction order generalizing j m with
  | nil => simpa [randomiseLoop] using h
  | cons k ks ih =>
    cases hk : mapGet m k with
    | none => simpa [randomiseLoop, hk] using ih j m h
    | some sg =>
      simp only [randomiseLoop, hk]
      exact ih _ _ (mapOK_mapSet _ _ _ h)

theorem keyIsID_randomiseLoop (L : Lib) (rnd : Nat → ℚ) (order : List Int) (j : Nat)
    (m : StatusMap) (h : KeyIsID m) : KeyIsID (randomiseLoop L rnd order j m) := by
  induction order generalizing j m with
  | nil => simpa [randomiseLoop] using h
  | cons k ks ih =>
    cases hk : mapGet m k with
    | none => simpa [randomiseLoop, hk] using ih j m h
    | some sg =>
      simp only [randomiseLoop, hk]
      apply ih
      intro k2 sg2 h2
      rw [mapGet_mapSet] at h2
      by_cases e : k2 = sg.ID
      · simp only [e, if_true, Option.some.injEq] at h2
        rw [← h2, e]
      · simp only [e, if_false] at h2
        exact h k2 sg2 h2

theorem mapOK_applyMutation (L : Lib) (s : Store) (mu : Mutation) (h : MapOK s.m) :
    MapOK (applyMutation L s mu).m := by
  cases mu with
  | newItem => exact mapOK_mapSet _ _ _ h
  | deleteItem itemID =>
    cases hk : mapGet s.m itemID with
    | none => simpa [applyMutation, deleteItem, hk] using h
    | some sg => simpa [applyMutation, deleteItem, hk] using mapOK_mapDelete _ itemID h
  | randomiseAllItems order rnd => exact mapOK_randomiseLoop L rnd order 0 s.m h

theorem dirty_applyMutation (L : Lib) (s : Store) (mu : Mutation) :
    (applyMutation L s mu).isUpdateRequired = true := by
  cases mu with
  | newItem => rfl
  | deleteItem itemID =>
    cases hk : mapGet s.m itemID <;> simp [applyMutation, deleteItem, hk]
  | randomiseAllItems order rnd => rfl

theorem reachable_inv (L : Lib) (s : Store) (h : Reachable L s) : MapOK s.m ∧ KeyIsID s.m := by
  induction h with
  | NewStore => exact ⟨List.nodup_nil, fun k sg hk => by simp [NewStore, mapGet] at hk⟩
  | @newItem s _ ih =>
    refine ⟨mapOK_mapSet _ _ _ ih.1, ?_⟩
    intro k sg hk
    simp only [newItem] at hk
    rw [mapGet_mapSet] at hk
    by_cases e : k = wrapInt64 (s.maxID + 1)
    · simp only [e, if_true, Option.some.injEq] at hk
      rw [← hk, e]
    · simp only [e, if_false] at hk
      exact ih.2 k sg hk
  | @deleteItem s itemID _ ih =>
    cases hk : mapGet s.m itemID with
    | none => simpa [GoBinary.deleteItem, hk] using ih
    | some sg0 =>
      simp only [GoBinary.deleteItem, hk]
      refine ⟨mapOK_mapDelete _ itemID ih.1, ?_⟩
      intro k sg hsg
      rw [mapGet_mapDelete] at hsg
      by_cases e : k = itemID
      · simp [e] at hsg
      · simp only [e, if_false] at hsg
        exact ih.2 k sg hsg
  | @randomiseAllItems s order rnd _ _ ih =>
    exact ⟨mapOK_randomiseLoop L rnd order 0 s.m ih.1,
      keyIsID_randomiseLoop L rnd order 0 s.m ih.2⟩
  | @sendAllItems s env _ _ ih =>
    by_cases hd : s.isUpdateRequired = true
    · cases he : env.encode (collectItems s.m env.order []) <;>
        simpa [GoBinary.sendAllItems, hd, he] using ih
    · simpa [GoBinary.sendAllItems, hd] using ih

/-! ## `sendAllItems` -/

/-- A call of `sendAllItems` on a dirty store clears the flag, builds the slice of
the records visited and hands it to the encoder and, when the encoder succeeds,
hands the payload to the write. -/
theorem sendAllItems_of_dirty (env : SendEnv) (s : Store) (hd : s.isUpdateRequired = true) :
    (sendAllItems env s).s = { s with isUpdateRequired := false }
    ∧ (sendAllItems env s).snapshot = some (collectItems s.m env.order [])
    ∧ (sendAllItems env s).written = env.encode (collectItems s.m env.order []) := by
  cases he : env.encode (collectItems s.m env.order []) <;> simp [sendAllItems, hd, he]

/-- A call of `sendAllItems` on a store that is not dirty does nothing. -/
theorem sendAllItems_of_clean (env : SendEnv) (s : Store) (hd : s.isUpdateRequired = false) :
    sendAllItems env s = { s := s, snapshot := none, written := none, err := none } := by
  simp [sendAllItems, hd]

theorem sendAllItemsRepeated_of_clean (s : Store) (envs : List SendEnv)
    (hd : s.isUpdateRequired = false) :
    ∀ r ∈ sendAllItemsRepeated s envs,
      r = { s := s, snapshot := none, written := none, err := none } := by
  induction envs with
  | nil => simp [sendAllItemsRepeated]
  | cons env envs ih =>
    intro r hr
    simp only [sendAllItemsRepeated, sendAllItems_of_clean env s hd, List.mem_cons] at hr
    rcases hr with hr | hr
    · exact hr
    · exact ih r hr

theorem filterMap_mapGet_ids (m : StatusMap) (order : List Int) (hk : KeyIsID m)
    (hmem : ∀ k ∈ order, k ∈ mapKeys m) :
    (order.filterMap (mapGet m)).map Status.ID = order := by
  induction order with
  | nil => simp
  | cons k ks ih =>
    have hin : k ∈ mapKeys m := hmem k (List.mem_cons_self k ks)
    cases hg : mapGet m k with
    | none => exact absurd hin ((mapGet_eq_none_iff m k).1 hg)
    | some sg =>
      rw [List.filterMap_cons_some hg, List.map_cons, hk k sg hg,
        ih (fun k2 h2 => hmem k2 (List.mem_cons_of_mem k h2))]

/-! ## The id counter -/

theorem wrapInt64_of_inRange (x : Int) (h1 : -2 ^ 63 ≤ x) (h2 : x < 2 ^ 63) :
    wrapInt64 x = x := by
  unfold wrapInt64
  rw [Int.emod_eq_of_lt (by omega) (by omega)]
  omega

theorem maxID_applyOp_of_not_newItem (L : Lib) (s : Store) (op : Op)
    (hop : newItemCount [op] = 0) :
    (applyOp L s op).maxID = s.maxID := by
  cases op with
  | newItem => simp [newItemCount] at hop
  | deleteItem itemID =>
    cases hk : mapGet s.m itemID <;> simp [applyOp, deleteItem, hk]
  | randomiseAllItems order rnd => rfl
  | sendAllItems env =>
    by_cases hd : s.isUpdateRequired = true
    · cases he : env.encode (collectItems s.m env.order []) <;>
        simp [applyOp, sendAllItems, hd, he]
    · simp [applyOp, sendAllItems, hd]

theorem assignedIDs_eq (L : Lib) (ops : List Op) :
    ∀ s : Store, 0 ≤ s.maxID → s.maxID + (newItemCount ops : Int) < 2 ^ 63 →
      assignedIDs L s ops
        = (List.range (newItemCount ops)).map (fun i : Nat => s.maxID + 1 + (i : Int)) := by
  induction ops with
  | nil => intro s _ _; simp [assignedIDs, newItemCount]
  | cons op ops ih =>
    intro s h0 hlt
    cases op with
    | newItem =>
      simp only [newItemCount, Nat.cast_add, Nat.cast_one] at hlt
      have hmax : (newItem L s).maxID = s.maxID + 1 := by
        show wrapInt64 (s.maxID + 1) = s.maxID + 1
        exact wrapInt64_of_inRange _ (by omega) (by omega)
      have ih2 := ih (newItem L s) (by omega) (by omega)
      simp only [assignedIDs, newItemCount, ih2, hmax, List.range_succ_eq_map, List.map_cons,
        List.map_map]
      congr 1
      · simp
      · apply List.map_congr_left
        intro i _
        simp only [Function.comp, Nat.cast_succ]
        ring
    | deleteItem itemID =>
      have hm := maxID_applyOp_of_not_newItem L s (Op.deleteItem itemID) rfl
      have ih2 := ih (applyOp L s (Op.deleteItem itemID)) (by omega)
        (by simpa [newItemCount, hm] using hlt)
      simpa [assignedIDs, newItemCount, hm] using ih2
    | randomiseAllItems order rnd =>
      have hm := maxID_applyOp_of_not_newItem L s (Op.randomiseAllItems order rnd) rfl
      have ih2 := ih (applyOp L s (Op.randomiseAllItems order rnd)) (by omega)
        (by simpa [newItemCount, hm] using hlt)
      simpa [assignedIDs, newItemCount, hm] using ih2
    | sendAllItems env =>
      have hm := maxID_applyOp_of_not_newItem L s (Op.sendAllItems env) rfl
      have ih2 := ih (applyOp L s (Op.sendAllItems env)) (by omega)
        (by simpa [newItemCount, hm] using hlt)
      simpa [assignedIDs, newItemCount, hm] using ih2

/-! ## The additional-data check -/

theorem adCheck_step {AD : Type} (carried : AD → Option Int)
    (auth : AD → Int → Except String (Bool × Int)) (hauth : AuthSpec carried auth)
    (s : Store) (ad : AD) :
    (admits (adCheck auth s ad).2 = true
      ∧ ∃ t, carried ad = some t ∧ s.additionalDataTimestamp < t
        ∧ (adCheck auth s ad).1 = { s with additionalDataTimestamp := t })
    ∨ (admits (adCheck auth s ad).2 = false
      ∧ (adCheck auth s ad).1 = s
      ∧ ∀ t, carried ad = some t → ¬ s.additionalDataTimestamp < t) := by
  have h := hauth ad s.additionalDataTimestamp
  cases hc : carried ad with
  | none =>
    simp only [hc] at h
    obtain ⟨e, he⟩ := h
    right
    simp [adCheck, he, admits]
  | some t =>
    simp only [hc] at h
    obtain ⟨i, hi, hit⟩ := h
    by_cases hlt : s.additionalDataTimestamp < t
    · left
      have := hit hlt
      subst this
      simp [adCheck, hi, hlt, admits]
    · right
      simp [adCheck, hi, hlt, admits]
      omega

theorem adCheckAll_timestamp {AD : Type} (carried : AD → Option Int)
    (auth : AD → Int → Except String (Bool × Int)) (hauth : AuthSpec carried auth)
    (ads : List AD) :
    ∀ s : Store,
      s.additionalDataTimestamp ≤ (adCheckAll auth s ads).additionalDataTimestamp
      ∧ (∀ ad ∈ admittedData auth s ads, ∃ t, carried ad = some t
          ∧ s.additionalDataTimestamp < t
          ∧ t ≤ (adCheckAll auth s ads).additionalDataTimestamp)
      ∧ ((adCheckAll auth s ads).additionalDataTimestamp = s.additionalDataTimestamp
          ∨ ∃ ad ∈ admittedData auth s ads,
              carried ad = some (adCheckAll auth s ads).additionalDataTimestamp) := by
  induction ads with
  | nil => intro s; simp [adCheckAll, admittedData]
  | cons ad rest ih =>
    intro s
    obtain ⟨ih1, ih2, ih3⟩ := ih (adCheck auth s ad).1
    rcases adCheck_step carried auth hauth s ad with ⟨ha, t, hct, hlt, hs⟩ | ⟨ha, hs, _⟩
    · have hts : (adCheck auth s ad).1.additionalDataTimestamp = t := by rw [hs]
      simp only [adCheckAll, admittedData, ha, if_true, List.mem_cons]
      rw [hts] at ih1 ih2 ih3
      refine ⟨by omega, ?_, ?_⟩
      · intro ad2 h2
        rcases h2 with h2 | h2
        · subst h2
          exact ⟨t, hct, hlt, ih1⟩
        · obtain ⟨t2, hc2, hlt2, hle2⟩ := ih2 ad2 h2
          exact ⟨t2, hc2, by omega, hle2⟩
      · right
        rcases ih3 with h3 | ⟨ad2, hm2, hc2⟩
        · exact ⟨ad, Or.inl rfl, by rw [h3]; exact hct⟩
        · exact ⟨ad2, Or.inr hm2, hc2⟩
    · simp only [adCheckAll, admittedData, ha, Bool.false_eq_true, if_false]
      rw [hs] at ih1 ih2 ih3
      rw [hs]
      exact ⟨ih1, ih2, ih3⟩

theorem admittedData_increasing {AD : Type} (carried : AD → Option Int)
    (auth : AD → Int → Except String (Bool × Int)) (hauth : AuthSpec carried auth)
    (ads : List AD) :
    ∀ s : Store,
      ((admittedData auth s ads).filterMap carried).Pairwise (fun a b => a < b)
      ∧ ((admittedData auth s ads).filterMap carried).length = (admittedData auth s ads).length
      ∧ ∀ t ∈ (admittedData auth s ads).filterMap carried, s.additionalDataTimestamp < t := by
  induction ads with
  | nil => intro s; simp [admittedData]
  | cons ad rest ih =>
    intro s
    obtain ⟨ih1, ih2, ih3⟩ := ih (adCheck auth s ad).1
    rcases adCheck_step carried auth hauth s ad with ⟨ha, t, hct, hlt, hs⟩ | ⟨ha, hs, _⟩
    · have hts : (adCheck auth s ad).1.additionalDataTimestamp = t := by rw [hs]
      simp only [admittedData, ha, if_true, List.filterMap_cons_some hct, List.pairwise_cons,
        List.length_cons, List.mem_cons]
      rw [hts] at ih3
      refine ⟨⟨ih3, ih1⟩, by rw [ih2], ?_⟩
      intro t2 h2
      rcases h2 with h2 | h2
      · rw [h2]; exact hlt
      · have := ih3 t2 h2
        omega
    · simp only [admittedData, ha, Bool.false_eq_true, if_false]
      rw [hs] at ih1 ih2 ih3
      rw [hs]
      exact ⟨ih1, ih2, ih3⟩

/-! ## The send loop -/

theorem tick_step (L : Lib) (st : LoopState) (env : TickEnv) (n : Nat)
    (h : st.updateCount = ((n % 5 : Nat) : Int)) :
    (tick L st env).updateCount = (((n + 1) % 5 : Nat) : Int)
    ∧ (tick L st env).log
      = st.log ++ [if (n + 1) % 5 = 0
          then [LoopCall.randomiseAllItems, LoopCall.sendAllItems]
          else [LoopCall.sendAllItems]]
    ∧ (tick L st env).s
      = if (n + 1) % 5 = 0
          then (sendAllItems env.send (randomiseAllItems L env.order env.rnd st.s)).s
          else (sendAllItems env.send st.s).s := by
  have hw : wrapInt64 (st.updateCount + 1) = st.updateCount + 1 :=
    wrapInt64_of_inRange _ (by omega) (by omega)
  unfold tick
  simp only [hw]
  by_cases h5 : (n + 1) % 5 = 0
  · have hc : st.updateCount + 1 = 5 := by omega
    rw [if_pos hc]
    simp [h5]
  · have hc : ¬ st.updateCount + 1 = 5 := by omega
    rw [if_neg hc]
    simp only [h5, if_false, and_true]
    omega

theorem loopOps_append (envs : List TickEnv) (env : TickEnv) :
    ∀ i : Nat, loopOps i (envs ++ [env])
      = loopOps i envs
        ++ (if (i + envs.length) % 5 = 0
            then [Op.randomiseAllItems env.order env.rnd, Op.sendAllItems env.send]
            else [Op.sendAllItems env.send]) := by
  induction envs with
  | nil => intro i; simp [loopOps]
  | cons e envs ih =>
    intro i
    have hidx : i + 1 + envs.length = i + (envs.length + 1) := by omega
    show (if i % 5 = 0 then [Op.randomiseAllItems e.order e.rnd, Op.sendAllItems e.send]
          else [Op.sendAllItems e.send]) ++ loopOps (i + 1) (envs ++ [env])
      = ((if i % 5 = 0 then [Op.randomiseAllItems e.order e.rnd, Op.sendAllItems e.send]
          else [Op.sendAllItems e.send]) ++ loopOps (i + 1) envs)
        ++ (if (i + (envs.length + 1)) % 5 = 0
            then [Op.randomiseAllItems env.order env.rnd, Op.sendAllItems env.send]
            else [Op.sendAllItems env.send])
    rw [ih (i + 1), hidx, List.append_assoc]

theorem runTicks_append (L : Lib) (st : LoopState) (envs : List TickEnv) (env : TickEnv) :
    runTicks L st (envs ++ [env]) = tick L (runTicks L st envs) env := by
  simp [runTicks, List.foldl_append]

theorem runTicks_updateCount (L : Lib) (s : Store) (envs : List TickEnv) :
    (runTicks L (loopStart s) envs).updateCount = ((envs.length % 5 : Nat) : Int) := by
  induction envs using List.reverseRecOn with
  | nil => simp [runTicks, loopStart]
  | append_singleton envs env ih =>
    rw [runTicks_append, List.length_append, List.length_singleton]
    exact (tick_step L (runTicks L (loopStart s) envs) env envs.length ih).1

theorem randomiseCount_append (log : List (List LoopCall)) (calls : List LoopCall) :
    randomiseCount (log ++ [calls])
      = randomiseCount log + calls.count LoopCall.randomiseAllItems := by
  simp [randomiseCount]

/-! ## `randomiseAllItems` -/

theorem randomiseLoop_spec (L : Lib) (rnd : Nat → ℚ) (ks : List Int) :
    ∀ (j : Nat) (m : StatusMap), KeyIsID m → ks.Nodup → (∀ k ∈ ks, k ∈ mapKeys m) →
      mapKeys (randomiseLoop L rnd ks j m) = mapKeys m
      ∧ (∀ k, k ∉ ks → mapGet (randomiseLoop L rnd ks j m) k = mapGet m k)
      ∧ (∀ k i sg, ks[i]? = some k → mapGet m k = some sg →
          mapGet (randomiseLoop L rnd ks j m) k = some (randomised L sg (rnd (j + i)))) := by
  induction ks with
  | nil =>
    intro j m _ _ _
    simp [randomiseLoop]
  | cons k0 ks ih =>
    intro j m hkey hnd hmem
    have hin : k0 ∈ mapKeys m := hmem k0 (List.mem_cons_self k0 ks)
    rw [List.nodup_cons] at hnd
    cases hg : mapGet m k0 with
    | none => exact absurd hin ((mapGet_eq_none_iff m k0).1 hg)
    | some sg0 =>
      have hid : sg0.ID = k0 := hkey k0 sg0 hg
      have hkeys : mapKeys (mapSet m k0 (randomised L sg0 (rnd j))) = mapKeys m :=
        mapKeys_mapSet_of_mem m k0 _ hin
      have hkey2 : KeyIsID (mapSet m k0 (randomised L sg0 (rnd j))) := by
        intro k sg h
        rw [mapGet_mapSet] at h
        by_cases e : k = k0
        · simp only [e, if_true, Option.some.injEq] at h
          rw [← h, e]
          exact hid
        · simp only [e, if_false] at h
          exact hkey k sg h
      obtain ⟨ih1, ih2, ih3⟩ := ih (j + 1) (mapSet m k0 (randomised L sg0 (rnd j))) hkey2 hnd.2
        (fun k hk => by rw [hkeys]; exact hmem k (List.mem_cons_of_mem k0 hk))
      have hloop : randomiseLoop L rnd (k0 :: ks) j m
          = randomiseLoop L rnd ks (j + 1) (mapSet m k0 (randomised L sg0 (rnd j))) := by
        simp only [randomiseLoop, hg, randomised, hid]
      rw [hloop]
      refine ⟨by rw [ih1, hkeys], ?_, ?_⟩
      · intro k hk
        rw [List.mem_cons, not_or] at hk
        rw [ih2 k hk.2, mapGet_mapSet_ne _ _ _ _ hk.1]
      · intro k i sg hi hsg
        cases i with
        | zero =>
          simp only [List.getElem?_cons_zero, Option.some.injEq] at hi
          subst hi
          rw [ih2 k0 hnd.1, mapGet_mapSet_self]
          rw [hg] at hsg
          rw [← Option.some.inj hsg]
          rfl
        | succ i =>
          simp only [List.getElem?_cons_succ] at hi
          have hk : k ∈ ks := List.getElem?_mem hi
          have hne : k ≠ k0 := fun e => hnd.1 (e ▸ hk)
          have := ih3 k i sg hi (by rw [mapGet_mapSet_ne _ _ _ _ hne]; exact hsg)
          rw [this]
          congr 3
          omega

/-! ## The ids assigned by `newItem` -/

theorem mapKeys_randomiseLoop (L : Lib) (rnd : Nat → ℚ) (order : List Int) (j : Nat)
    (m : StatusMap) (h : KeyIsID m) : mapKeys (randomiseLoop L rnd order j m) = mapKeys m := by
  induction order generalizing j m with
  | nil => simp [randomiseLoop]
  | cons k ks ih =>
    cases hk : mapGet m k with
    | none => simpa [randomiseLoop, hk] using ih j m h
    | some sg =>
      have hid : sg.ID = k := h k sg hk
      have hin : k ∈ mapKeys m := by
        by_contra hn
        rw [← mapGet_eq_none_iff, hk] at hn
        exact absurd hn (by simp)
      have hstep : KeyIsID (mapSet m k (randomised L sg (rnd j))) := by
        intro k2 sg2 h2
        rw [mapGet_mapSet] at h2
        by_cases e : k2 = k
        · simp only [e, if_true, Option.some.injEq] at h2
          rw [← h2, e]
          exact hid
        · simp only [e, if_false] at h2
          exact h k2 sg2 h2
      have hloop : randomiseLoop L rnd (k :: ks) j m
          = randomiseLoop L rnd ks (j + 1) (mapSet m k (randomised L sg (rnd j))) := by
        simp only [randomiseLoop, hk, randomised, hid]
      rw [hloop, ih (j + 1) _ hstep, mapKeys_mapSet_of_mem m k _ hin]

theorem mapGet_randomiseLoop_isSome (L : Lib) (rnd : Nat → ℚ) (order : List Int) (j : Nat)
    (m : StatusMap) (h : KeyIsID m) (k : Int) (sg : Status)
    (hg : mapGet (randomiseLoop L rnd order j m) k = some sg) : ∃ sg0, mapGet m k = some sg0 := by
  cases h0 : mapGet m k with
  | some sg0 => exact ⟨sg0, rfl⟩
  | none =>
    rw [mapGet_eq_none_iff, ← mapKeys_randomiseLoop L rnd order j m h, ← mapGet_eq_none_iff] at h0
    rw [h0] at hg
    exact absurd hg (by simp)

theorem newItemCount_append (ops1 ops2 : List Op) :
    newItemCount (ops1 ++ ops2) = newItemCount ops1 + newItemCount ops2 := by
  induction ops1 with
  | nil => simp [newItemCount]
  | cons op ops ih =>
    cases op <;> simp [newItemCount, ih]
    omega

theorem applyOps_cons (L : Lib) (s : Store) (op : Op) (ops : List Op) :
    applyOps L s (op :: ops) = applyOps L (applyOp L s op) ops := by
  simp [applyOps]

theorem applyOps_append (L : Lib) (s : Store) (ops1 ops2 : List Op) :
    applyOps L s (ops1 ++ ops2) = applyOps L (applyOps L s ops1) ops2 := by
  simp [applyOps, List.foldl_append]

theorem counterInv_applyOp (L : Lib) (s : Store) (n : Nat) (op : Op) (h : CounterInv s n)
    (hlt : (n : Int) + (newItemCount [op] : Int) < 2 ^ 63) :
    CounterInv (applyOp L s op) (n + newItemCount [op]) := by
  obtain ⟨hmax, hkey, hbound⟩ := h
  cases op with
  | newItem =>
    simp only [newItemCount, Nat.cast_add, Nat.cast_one, Nat.cast_zero, zero_add] at hlt
    have hw : wrapInt64 (s.maxID + 1) = (n : Int) + 1 := by
      rw [hmax]
      exact wrapInt64_of_inRange _ (by omega) (by omega)
    refine ⟨?_, ?_, ?_⟩
    · show wrapInt64 (s.maxID + 1) = ((n + newItemCount [Op.newItem] : Nat) : Int)
      rw [hw]
      simp [newItemCount]
    · intro k sg hk
      simp only [applyOp, newItem] at hk
      rw [mapGet_mapSet] at hk
      by_cases e : k = wrapInt64 (s.maxID + 1)
      · simp only [e, if_true, Option.some.injEq] at hk
        rw [← hk, e]
      · simp only [e, if_false] at hk
        exact hkey k sg hk
    · intro k sg hk
      simp only [applyOp, newItem] at hk
      rw [mapGet_mapSet] at hk
      simp only [newItemCount, Nat.cast_add, Nat.cast_one, Nat.cast_zero, zero_add]
      by_cases e : k = wrapInt64 (s.maxID + 1)
      · rw [e, hw]
        omega
      · simp only [e, if_false] at hk
        have := hbound k sg hk
        omega
  | deleteItem itemID =>
    cases hg : mapGet s.m itemID with
    | none => simpa [applyOp, deleteItem, hg, newItemCount, CounterInv] using ⟨hmax, hkey, hbound⟩
    | some sg0 =>
      refine ⟨by simpa [applyOp, deleteItem, hg, newItemCount] using hmax, ?_, ?_⟩
      · intro k sg hk
        simp only [applyOp, deleteItem, hg] at hk
        rw [mapGet_mapDelete] at hk
        by_cases e : k = itemID
        · simp [e] at hk
        · simp only [e, if_false] at hk
          exact hkey k sg hk
      · intro k sg hk
        simp only [applyOp, deleteItem, hg] at hk
        rw [mapGet_mapDelete] at hk
        by_cases e : k = itemID
        · simp [e] at hk
        · simp only [e, if_false] at hk
          simpa [newItemCount] using hbound k sg hk
  | randomiseAllItems order rnd =>
    refine ⟨by simpa [applyOp, randomiseAllItems, newItemCount] using hmax,
      keyIsID_randomiseLoop L rnd order 0 s.m hkey, ?_⟩
    intro k sg hk
    obtain ⟨sg0, h0⟩ := mapGet_randomiseLoop_isSome L rnd order 0 s.m hkey k sg hk
    simpa [newItemCount] using hbound k sg0 h0
  | sendAllItems env =>
    by_cases hd : s.isUpdateRequired = true
    · cases he : env.encode (collectItems s.m env.order []) <;>
        simpa [applyOp, sendAllItems, hd, he, newItemCount, CounterInv] using ⟨hmax, hkey, hbound⟩
    · simpa [applyOp, sendAllItems, hd, newItemCount, CounterInv] using ⟨hmax, hkey, hbound⟩

theorem counterInv_applyOps (L : Lib) (ops : List Op) :
    ∀ (s : Store) (n : Nat), CounterInv s n → (n : Int) + (newItemCount ops : Int) < 2 ^ 63 →
      CounterInv (applyOps L s ops) (n + newItemCount ops) := by
  induction ops with
  | nil => intro s n h _; simpa [applyOps, newItemCount] using h
  | cons op ops ih =>
    intro s n h hlt
    have hc : newItemCount (op :: ops) = newItemCount [op] + newItemCount ops :=
      newItemCount_append [op] ops
    rw [hc] at hlt ⊢
    rw [applyOps_cons, ← Nat.add_assoc]
    apply ih
    · exact counterInv_applyOp L s n op h (by push_cast at hlt ⊢; omega)
    · push_cast at hlt ⊢
      omega

theorem counterInv_NewStore (wsHost : String) (isSecure : Bool)
    (authToken wsPath sendRoom receiveRoom : String) (additionalDataTimestamp : Int) :
    CounterInv
      (NewStore wsHost isSecure authToken wsPath sendRoom receiveRoom additionalDataTimestamp)
      0 :=
  ⟨rfl, fun k sg hk => by simp [NewStore, mapGet] at hk,
    fun k sg hk => by simp [NewStore, mapGet] at hk⟩

/-! ## `deleteItem` -/

/-- C8. `deleteItem(id)` returns true exactly when a record with that id was in
the registry; afterwards no record has that id, every other record and the id
counter are as before, and deleting the same id again returns false. -/
theorem deleteItem_removes (s : Store) (itemID : Int) :
    ((deleteItem s itemID).2 = true ↔ ∃ sg, mapGet s.m itemID = some sg)
    ∧ mapGet (deleteItem s itemID).1.m itemID = none
    ∧ (∀ k, k ≠ itemID → mapGet (deleteItem s itemID).1.m k = mapGet s.m k)
    ∧ (deleteItem s itemID).1.maxID = s.maxID
    ∧ (deleteItem (deleteItem s itemID).1 itemID).2 = false := by
  cases h : mapGet s.m itemID with
  | none =>
    simp [deleteItem, h]
  | some sg =>
    have h1 := mapGet_mapDelete_self s.m itemID
    have h2 := fun k (hk : k ≠ itemID) => mapGet_mapDelete_ne s.m itemID k hk
    simp [deleteItem, h, h1]
    exact h2

/-- C6 (as stated, refuted). On the empty store that the first `sendAllItems`
left clean, `deleteItem(7)` finds no record and returns false, yet the dirty flag
is set: the store is not unchanged, and the following `sendAllItems` writes a
payload. -/
theorem deleteItem_absent_sets_dirty_example :
    mapGet exampleCleanStore.m 7 = none
    ∧ exampleCleanStore.isUpdateRequired = false
    ∧ (deleteItem exampleCleanStore 7).2 = false
    ∧ (deleteItem exampleCleanStore 7).1.isUpdateRequired = true
    ∧ (deleteItem exampleCleanStore 7).1 ≠ exampleCleanStore
    ∧ (sendAllItems (exampleEnv []) (deleteItem exampleCleanStore 7).1).written
        = some "payload" := by
  refine ⟨rfl, rfl, rfl, rfl, ?_, rfl⟩
  intro h
  have h2 := congrArg Store.isUpdateRequired h
  exact absurd h2 (by decide)

/-- C6 (amended). `deleteItem` marks the registry dirty on every call: for an id
that is not in the registry it returns false and leaves the items, the id
counter and every other field unchanged, but sets the dirty flag, so the
following `sendAllItems` builds a snapshot of the (unchanged) items and hands it
to the encoder and the write. -/
theorem deleteItem_absent (s : Store) (itemID : Int) (h : mapGet s.m itemID = none) :
    (deleteItem s itemID).2 = false
    ∧ (deleteItem s itemID).1 = { s with isUpdateRequired := true }
    ∧ ∀ env : SendEnv,
        (sendAllItems env (deleteItem s itemID).1).snapshot
          = some (collectItems s.m env.order [])
        ∧ (sendAllItems env (deleteItem s itemID).1).written
          = env.encode (collectItems s.m env.order []) := by
  refine ⟨by simp [deleteItem, h], by simp [deleteItem, h], ?_⟩
  intro env
  cases he : env.encode (collectItems s.m env.order []) <;>
    simp [deleteItem, h, sendAllItems, he]

theorem deleteItem_absent_witness :
    mapGet exampleCleanStore.m 7 = none
    ∧ ((deleteItem exampleCleanStore 7).2 = false
      ∧ (deleteItem exampleCleanStore 7).1 = { exampleCleanStore with isUpdateRequired := true }
      ∧ ∀ env : SendEnv,
          (sendAllItems env (deleteItem exampleCleanStore 7).1).snapshot
            = some (collectItems exampleCleanStore.m env.order [])
          ∧ (sendAllItems env (deleteItem exampleCleanStore 7).1).written
            = env.encode (collectItems exampleCleanStore.m env.order [])) :=
  ⟨rfl, deleteItem_absent exampleCleanStore 7 rfl⟩

/-- C2. After any single `newItem`, `deleteItem` or `randomiseAllItems` call the
first `sendAllItems` call builds a snapshot holding every record of the registry
exactly once and hands it to the encoder, whose payload is what is written;
every later `sendAllItems` call with no mutation in between builds nothing,
writes nothing, returns no error and leaves the store unchanged. -/
theorem sendAllItems_once_after_mutation (L : Lib) (s : Store) (mu : Mutation)
    (env : SendEnv) (later : List SendEnv) (hs : MapOK s.m)
    (horder : env.order.Perm (mapKeys (applyMutation L s mu).m)) :
    (∃ v, (sendAllItems env (applyMutation L s mu)).snapshot = some v
      ∧ v.Perm (mapValues (applyMutation L s mu).m)
      ∧ (sendAllItems env (applyMutation L s mu)).written = env.encode v)
    ∧ (sendAllItems env (applyMutation L s mu)).s.m = (applyMutation L s mu).m
    ∧ ∀ r ∈ sendAllItemsRepeated (sendAllItems env (applyMutation L s mu)).s later,
        r.snapshot = none ∧ r.written = none ∧ r.err = none
        ∧ r.s = (sendAllItems env (applyMutation L s mu)).s := by
  have hd := dirty_applyMutation L s mu
  obtain ⟨h1, h2, h3⟩ := sendAllItems_of_dirty env (applyMutation L s mu) hd
  refine ⟨⟨_, h2, collectItems_perm _ _ (mapOK_applyMutation L s mu hs) horder, h3⟩, ?_, ?_⟩
  · rw [h1]
  · intro r hr
    have hclean : (sendAllItems env (applyMutation L s mu)).s.isUpdateRequired = false := by
      rw [h1]
    rw [sendAllItemsRepeated_of_clean _ later hclean r hr]
    exact ⟨rfl, rfl, rfl, rfl⟩

theorem sendAllItems_once_after_mutation_witness :
    MapOK exampleStore.m
    ∧ [1].Perm (mapKeys (applyMutation exampleLib exampleStore Mutation.newItem).m)
    ∧ ((∃ v, (sendAllItems (exampleEnv [1])
            (applyMutation exampleLib exampleStore Mutation.newItem)).snapshot = some v
        ∧ v.Perm (mapValues (applyMutation exampleLib exampleStore Mutation.newItem).m)
        ∧ (sendAllItems (exampleEnv [1])
            (applyMutation exampleLib exampleStore Mutation.newItem)).written
          = (exampleEnv [1]).encode v)
      ∧ (sendAllItems (exampleEnv [1])
            (applyMutation exampleLib exampleStore Mutation.newItem)).s.m
          = (applyMutation exampleLib exampleStore Mutation.newItem).m
      ∧ ∀ r ∈ sendAllItemsRepeated
            (sendAllItems (exampleEnv [1])
              (applyMutation exampleLib exampleStore Mutation.newItem)).s
            [exampleEnv [1], exampleEnv []],
          r.snapshot = none ∧ r.written = none ∧ r.err = none
          ∧ r.s = (sendAllItems (exampleEnv [1])
              (applyMutation exampleLib exampleStore Mutation.newItem)).s) :=
  ⟨by decide, by decide,
    sendAllItems_once_after_mutation exampleLib exampleStore Mutation.newItem (exampleEnv [1])
      [exampleEnv [1], exampleEnv []] (by decide) (by decide)⟩

/-- C1. For every sequence of `newItem`, `deleteItem`, `randomiseAllItems` and
`sendAllItems` calls on a store built by `NewStore` with fewer than `2 ^ 63`
`newItem` calls (no overflow of the counter), the `k`-th `newItem` call assigns
the id `k`: it stores the record with `ID` `k` under the key `k`, changes no
other key, and `k` was the key of no record in any earlier state of the
registry. Hence every id assigned is strictly greater than every id assigned
before it and no id is assigned twice, deleted or not. -/
theorem newItem_ids_increasing (L : Lib) (wsHost : String) (isSecure : Bool)
    (authToken wsPath sendRoom receiveRoom : String) (additionalDataTimestamp : Int)
    (ops : List Op) (h : newItemCount ops < 2 ^ 63) :
    assignedIDs L
        (NewStore wsHost isSecure authToken wsPath sendRoom receiveRoom additionalDataTimestamp)
        ops
      = (List.range (newItemCount ops)).map (fun i : Nat => (i : Int) + 1)
    ∧ (assignedIDs L
        (NewStore wsHost isSecure authToken wsPath sendRoom receiveRoom additionalDataTimestamp)
        ops).Pairwise (fun a b => a < b)
    ∧ (assignedIDs L
        (NewStore wsHost isSecure authToken wsPath sendRoom receiveRoom additionalDataTimestamp)
        ops).Nodup
    ∧ ∀ pre post : List Op, ops = pre ++ Op.newItem :: post →
        (assignedIDs L
          (NewStore wsHost isSecure authToken wsPath sendRoom receiveRoom additionalDataTimestamp)
          ops)[newItemCount pre]? = some ((newItemCount pre : Int) + 1)
        ∧ (newItem L (applyOps L
            (NewStore wsHost isSecure authToken wsPath sendRoom receiveRoom additionalDataTimestamp)
            pre)).maxID = (newItemCount pre : Int) + 1
        ∧ mapGet (newItem L (applyOps L
            (NewStore wsHost isSecure authToken wsPath sendRoom receiveRoom additionalDataTimestamp)
            pre)).m ((newItemCount pre : Int) + 1)
          = some (newRecord L ((newItemCount pre : Int) + 1))
        ∧ (∀ k, k ≠ (newItemCount pre : Int) + 1 →
            mapGet (newItem L (applyOps L
              (NewStore wsHost isSecure authToken wsPath sendRoom receiveRoom additionalDataTimestamp)
              pre)).m k
            = mapGet (applyOps L
              (NewStore wsHost isSecure authToken wsPath sendRoom receiveRoom additionalDataTimestamp)
              pre).m k)
        ∧ ∀ pre1 rest1 : List Op, pre = pre1 ++ rest1 →
            mapGet (applyOps L
              (NewStore wsHost isSecure authToken wsPath sendRoom receiveRoom additionalDataTimestamp)
              pre1).m ((newItemCount pre : Int) + 1) = none := by
  have hinv0 := counterInv_NewStore wsHost isSecure authToken wsPath sendRoom receiveRoom
    additionalDataTimestamp
  have heq := assignedIDs_eq L ops
    (NewStore wsHost isSecure authToken wsPath sendRoom receiveRoom additionalDataTimestamp)
    (by simp [NewStore]) (by simp only [NewStore]; omega)
  have heq2 : assignedIDs L
      (NewStore wsHost isSecure authToken wsPath sendRoom receiveRoom additionalDataTimestamp)
      ops = (List.range (newItemCount ops)).map (fun i : Nat => (i : Int) + 1) := by
    rw [heq]
    apply List.map_congr_left
    intro i _
    simp [NewStore, add_comm]
  have hpw : ((List.range (newItemCount ops)).map (fun i : Nat => (i : Int) + 1)).Pairwise
      (fun a b => a < b) := by
    rw [List.pairwise_map]
    exact (List.pairwise_lt_range _).imp (fun hab => by omega)
  refine ⟨heq2, ?_, ?_, ?_⟩
  · rw [heq2]; exact hpw
  · rw [heq2]; exact hpw.imp (fun hab => ne_of_lt hab)
  · intro pre post hops
    have hcount : newItemCount ops = newItemCount pre + (1 + newItemCount post) := by
      rw [hops, newItemCount_append]
      simp only [newItemCount]
      omega
    have hpre := counterInv_applyOps L pre _ 0 hinv0 (by push_cast; omega)
    rw [Nat.zero_add] at hpre
    obtain ⟨hmax, _, hbound⟩ := hpre
    have hw : wrapInt64 ((applyOps L
        (NewStore wsHost isSecure authToken wsPath sendRoom receiveRoom additionalDataTimestamp)
        pre).maxID + 1) = (newItemCount pre : Int) + 1 := by
      rw [hmax]
      exact wrapInt64_of_inRange _ (by omega) (by omega)
    refine ⟨?_, hw, ?_, ?_, ?_⟩
    · rw [heq2, List.getElem?_map, List.getElem?_range (by omega)]
      rfl
    · show mapGet (mapSet _ (wrapInt64 _) _) _ = _
      rw [hw, mapGet_mapSet_self]
      rfl
    · intro k hk
      show mapGet (mapSet _ (wrapInt64 _) _) _ = _
      rw [hw, mapGet_mapSet_ne _ _ _ _ hk]
    · intro pre1 rest1 hsplit
      have hc1 : newItemCount pre = newItemCount pre1 + newItemCount rest1 := by
        rw [hsplit, newItemCount_append]
      have hpre1 := counterInv_applyOps L pre1 _ 0 hinv0 (by push_cast; omega)
      rw [Nat.zero_add] at hpre1
      cases hg : mapGet (applyOps L
          (NewStore wsHost isSecure authToken wsPath sendRoom receiveRoom
            additionalDataTimestamp) pre1).m ((newItemCount pre : Int) + 1) with
      | none => rfl
      | some sg =>
        have := (hpre1.2.2 _ sg hg).2
        omega

theorem newItem_ids_increasing_witness :
    newItemCount exampleOps < 2 ^ 63
    ∧ (assignedIDs exampleLib
          exampleStore
          exampleOps
        = (List.range (newItemCount exampleOps)).map (fun i : Nat => (i : Int) + 1)
      ∧ (assignedIDs exampleLib
          exampleStore
          exampleOps).Pairwise (fun a b => a < b)
      ∧ (assignedIDs exampleLib
          exampleStore
          exampleOps).Nodup
      ∧ ∀ pre post : List Op, exampleOps = pre ++ Op.newItem :: post →
          (assignedIDs exampleLib
            exampleStore
            exampleOps)[newItemCount pre]? = some ((newItemCount pre : Int) + 1)
          ∧ (newItem exampleLib (applyOps exampleLib
              exampleStore
              pre)).maxID = (newItemCount pre : Int) + 1
          ∧ mapGet (newItem exampleLib (applyOps exampleLib
              exampleStore
              pre)).m ((newItemCount pre : Int) + 1)
            = some (newRecord exampleLib ((newItemCount pre : Int) + 1))
          ∧ (∀ k, k ≠ (newItemCount pre : Int) + 1 →
              mapGet (newItem exampleLib (applyOps exampleLib
                exampleStore
                pre)).m k
              = mapGet (applyOps exampleLib
                exampleStore
                pre).m k)
          ∧ ∀ pre1 rest1 : List Op, pre = pre1 ++ rest1 →
              mapGet (applyOps exampleLib
                exampleStore
                pre1).m ((newItemCount pre : Int) + 1) = none) :=
  ⟨by decide,
    newItem_ids_increasing exampleLib "localhost:8000" false "token" "/ws" "0" "1" 100
      exampleOps (by decide)⟩

/-- C4 (as stated, refuted). The example store is dirty after `newItem`. When
the encoder fails, or when the write fails, `sendAllItems` returns the error and
the store is no longer dirty, and the next `sendAllItems`, whose encoder and
write would succeed, builds nothing and writes nothing. -/
theorem sendAllItems_failure_not_retried_example :
    (newItem exampleLib exampleStore).isUpdateRequired = true
    ∧ (sendAllItems (encodeFailsEnv [1]) (newItem exampleLib exampleStore)).err
        = some SendError.encode
    ∧ (sendAllItems (encodeFailsEnv [1]) (newItem exampleLib exampleStore)).s.isUpdateRequired
        = false
    ∧ (sendAllItems (exampleEnv [1])
        (sendAllItems (encodeFailsEnv [1]) (newItem exampleLib exampleStore)).s).written = none
    ∧ (sendAllItems (writeFailsEnv [1]) (newItem exampleLib exampleStore)).err
        = some SendError.write
    ∧ (sendAllItems (writeFailsEnv [1]) (newItem exampleLib exampleStore)).s.isUpdateRequired
        = false
    ∧ (sendAllItems (exampleEnv [1])
        (sendAllItems (writeFailsEnv [1]) (newItem exampleLib exampleStore)).s).snapshot = none
    ∧ (sendAllItems (exampleEnv [1])
        (sendAllItems (writeFailsEnv [1]) (newItem exampleLib exampleStore)).s).written = none :=
  ⟨rfl, rfl, rfl, rfl, rfl, rfl, rfl, rfl⟩

/-- C4 (amended). `sendAllItems` clears the dirty flag before it builds the
snapshot: for every dirty store, if the encode or the write fails, the call
leaves the store not dirty (and otherwise unchanged), so the next
`sendAllItems` call does nothing when no mutation came in between, and builds
and hands on a snapshot of the then-current items when a `newItem`,
`deleteItem` or `randomiseAllItems` call did. -/
theorem sendAllItems_failure_clears_dirty (L : Lib) (s : Store) (env next : SendEnv)
    (hd : s.isUpdateRequired = true) (hfail : (sendAllItems env s).err ≠ none) :
    (sendAllItems env s).s = { s with isUpdateRequired := false }
    ∧ ((env.encode (collectItems s.m env.order []) = none
          ∧ (sendAllItems env s).written = none)
        ∨ ∃ b, (sendAllItems env s).written = some b ∧ env.writeOk b = false)
    ∧ sendAllItems next (sendAllItems env s).s
        = { s := (sendAllItems env s).s, snapshot := none, written := none, err := none }
    ∧ ∀ mu : Mutation,
        (sendAllItems next (applyMutation L (sendAllItems env s).s mu)).snapshot
          = some (collectItems (applyMutation L (sendAllItems env s).s mu).m next.order [])
        ∧ (sendAllItems next (applyMutation L (sendAllItems env s).s mu)).written
          = next.encode
              (collectItems (applyMutation L (sendAllItems env s).s mu).m next.order []) := by
  have h1 := (sendAllItems_of_dirty env s hd).1
  refine ⟨h1, ?_, ?_, ?_⟩
  · cases he : env.encode (collectItems s.m env.order []) with
    | none => exact Or.inl ⟨rfl, by simp [sendAllItems, hd, he]⟩
    | some b =>
      refine Or.inr ⟨b, by simp [sendAllItems, hd, he], ?_⟩
      cases hw : env.writeOk b with
      | false => rfl
      | true => exact absurd (by simp [sendAllItems, hd, he, hw]) hfail
  · exact sendAllItems_of_clean next _ (by rw [h1])
  · intro mu
    exact (sendAllItems_of_dirty next _ (dirty_applyMutation L _ mu)).2

theorem sendAllItems_failure_clears_dirty_witness :
    (newItem exampleLib exampleStore).isUpdateRequired = true
    ∧ (sendAllItems (writeFailsEnv [1]) (newItem exampleLib exampleStore)).err ≠ none
    ∧ ((sendAllItems (writeFailsEnv [1]) (newItem exampleLib exampleStore)).s
        = { newItem exampleLib exampleStore with isUpdateRequired := false }
      ∧ (((writeFailsEnv [1]).encode
              (collectItems (newItem exampleLib exampleStore).m (writeFailsEnv [1]).order [])
            = none
          ∧ (sendAllItems (writeFailsEnv [1]) (newItem exampleLib exampleStore)).written = none)
        ∨ ∃ b, (sendAllItems (writeFailsEnv [1]) (newItem exampleLib exampleStore)).written
              = some b
            ∧ (writeFailsEnv [1]).writeOk b = false)
      ∧ sendAllItems (exampleEnv [1])
          (sendAllItems (writeFailsEnv [1]) (newItem exampleLib exampleStore)).s
        = { s := (sendAllItems (writeFailsEnv [1]) (newItem exampleLib exampleStore)).s
            snapshot := none, written := none, err := none }
      ∧ ∀ mu : Mutation,
          (sendAllItems (exampleEnv [1])
            (applyMutation exampleLib
              (sendAllItems (writeFailsEnv [1]) (newItem exampleLib exampleStore)).s mu)).snapshot
            = some (collectItems
                (applyMutation exampleLib
                  (sendAllItems (writeFailsEnv [1]) (newItem exampleLib exampleStore)).s mu).m
                (exampleEnv [1]).order [])
          ∧ (sendAllItems (exampleEnv [1])
            (applyMutation exampleLib
              (sendAllItems (writeFailsEnv [1]) (newItem exampleLib exampleStore)).s mu)).written
            = (exampleEnv [1]).encode
                (collectItems
                  (applyMutation exampleLib
                    (sendAllItems (writeFailsEnv [1]) (newItem exampleLib exampleStore)).s mu).m
                  (exampleEnv [1]).order [])) :=
  ⟨rfl, by decide,
    sendAllItems_failure_clears_dirty exampleLib (newItem exampleLib exampleStore)
      (writeFailsEnv [1]) (exampleEnv [1]) rfl (by decide)⟩

/-- C5 (as stated, refuted). The store reached by two `newItem` calls holds the
records 1 and 2 and is dirty; when `range` visits key 2 before key 1, the
snapshot built by `sendAllItems` lists record 2 before record 1, which is not
ascending. -/
theorem snapshot_not_ascending_example :
    Reachable exampleLib exampleTwoItems
    ∧ exampleTwoItems.isUpdateRequired = true
    ∧ [2, 1].Perm (mapKeys exampleTwoItems.m)
    ∧ Option.map (List.map Status.ID)
        (sendAllItems (exampleEnv [2, 1]) exampleTwoItems).snapshot = some [2, 1]
    ∧ ¬ List.Pairwise (fun a b : Int => a < b) [2, 1] := by
  refine ⟨?_, rfl, by decide, by decide, by decide⟩
  exact Reachable.newItem (Reachable.newItem (Reachable.NewStore _ _ _ _ _ _ _))

/-- C5 (amended). For every reachable dirty store, the snapshot built by
`sendAllItems` lists every record of the registry exactly once, in the order in
which `range` visits the map (which the language leaves unspecified). -/
theorem sendAllItems_snapshot_all_records (L : Lib) (s : Store) (env : SendEnv)
    (hr : Reachable L s) (hd : s.isUpdateRequired = true)
    (horder : env.order.Perm (mapKeys s.m)) :
    ∃ v, (sendAllItems env s).snapshot = some v
      ∧ v.Perm (mapValues s.m)
      ∧ v.map Status.ID = env.order := by
  obtain ⟨hok, hkey⟩ := reachable_inv L s hr
  refine ⟨_, (sendAllItems_of_dirty env s hd).2.1, collectItems_perm _ _ hok horder, ?_⟩
  rw [collectItems_eq, List.nil_append]
  exact filterMap_mapGet_ids s.m env.order hkey (fun k hk => horder.subset hk)

theorem sendAllItems_snapshot_all_records_witness :
    Reachable exampleLib exampleTwoItems
    ∧ exampleTwoItems.isUpdateRequired = true
    ∧ (exampleEnv [2, 1]).order.Perm (mapKeys exampleTwoItems.m)
    ∧ ∃ v, (sendAllItems (exampleEnv [2, 1]) exampleTwoItems).snapshot = some v
      ∧ v.Perm (mapValues exampleTwoItems.m)
      ∧ v.map Status.ID = (exampleEnv [2, 1]).order :=
  ⟨Reachable.newItem (Reachable.newItem (Reachable.NewStore _ _ _ _ _ _ _)), rfl, by decide,
    sendAllItems_snapshot_all_records exampleLib exampleTwoItems (exampleEnv [2, 1])
      (Reachable.newItem (Reachable.newItem (Reachable.NewStore _ _ _ _ _ _ _))) rfl
      (by decide)⟩

/-- C7. For a decoded request of type "deleteItem" the handler returns an error
exactly when the request ID is not a string, or the string does not parse as a
base-10 `int64`, or the parsed id is not in the registry. When the ID is not a
string or does not parse, no registry method is called and the store is
unchanged; when no error is returned, `deleteItem` was called once with the
parsed id, whose record has been removed while every other record is kept. -/
theorem handleRequest_deleteItem (L : Lib) (s : Store) (request : WSRequest)
    (ht : request.Typ = "deleteItem") :
    ((handleRequest L s request).err ≠ none ↔
      ((∀ str, request.ID ≠ Any.string str)
        ∨ (∃ str, request.ID = Any.string str ∧ ParseInt str = none)
        ∨ (∃ str itemID, request.ID = Any.string str ∧ ParseInt str = some itemID
            ∧ mapGet s.m itemID = none)))
    ∧ (((∀ str, request.ID ≠ Any.string str)
          ∨ (∃ str, request.ID = Any.string str ∧ ParseInt str = none)) →
        (handleRequest L s request).calls = [] ∧ (handleRequest L s request).s = s)
    ∧ ((handleRequest L s request).err = none →
        ∃ str itemID sg, request.ID = Any.string str ∧ ParseInt str = some itemID
          ∧ mapGet s.m itemID = some sg
          ∧ (handleRequest L s request).calls = [RegistryCall.deleteItem itemID]
          ∧ mapGet (handleRequest L s request).s.m itemID = none
          ∧ (∀ k, k ≠ itemID → mapGet (handleRequest L s request).s.m k = mapGet s.m k)
          ∧ (handleRequest L s request).s.maxID = s.maxID) := by
  obtain ⟨typ, id, data⟩ := request
  simp only at ht
  subst ht
  cases id with
  | string str =>
    cases hp : ParseInt str with
    | none => simp [handleRequest, hp]
    | some itemID =>
      cases hg : mapGet s.m itemID with
      | none => simp [handleRequest, hp, deleteItem, hg]
      | some sg =>
        have h1 := mapGet_mapDelete_self s.m itemID
        have h2 := fun k (hk : k ≠ itemID) => mapGet_mapDelete_ne s.m itemID k hk
        simp [handleRequest, hp, deleteItem, hg, h1]
        exact h2
  | null => simp [handleRequest]
  | bool b => simp [handleRequest]
  | number q => simp [handleRequest]
  | array l => simp [handleRequest]
  | object l => simp [handleRequest]

theorem handleRequest_deleteItem_witness :
    exampleDeleteRequest.Typ = "deleteItem"
    ∧ (((handleRequest exampleLib exampleTwoItems exampleDeleteRequest).err ≠ none ↔
          ((∀ str, exampleDeleteRequest.ID ≠ Any.string str)
            ∨ (∃ str, exampleDeleteRequest.ID = Any.string str ∧ ParseInt str = none)
            ∨ (∃ str itemID, exampleDeleteRequest.ID = Any.string str
                ∧ ParseInt str = some itemID ∧ mapGet exampleTwoItems.m itemID = none)))
      ∧ (((∀ str, exampleDeleteRequest.ID ≠ Any.string str)
            ∨ (∃ str, exampleDeleteRequest.ID = Any.string str ∧ ParseInt str = none)) →
          (handleRequest exampleLib exampleTwoItems exampleDeleteRequest).calls = []
            ∧ (handleRequest exampleLib exampleTwoItems exampleDeleteRequest).s
              = exampleTwoItems)
      ∧ ((handleRequest exampleLib exampleTwoItems exampleDeleteRequest).err = none →
          ∃ str itemID sg, exampleDeleteRequest.ID = Any.string str
            ∧ ParseInt str = some itemID
            ∧ mapGet exampleTwoItems.m itemID = some sg
            ∧ (handleRequest exampleLib exampleTwoItems exampleDeleteRequest).calls
              = [RegistryCall.deleteItem itemID]
            ∧ mapGet (handleRequest exampleLib exampleTwoItems exampleDeleteRequest).s.m itemID
              = none
            ∧ (∀ k, k ≠ itemID →
                mapGet (handleRequest exampleLib exampleTwoItems exampleDeleteRequest).s.m k
                = mapGet exampleTwoItems.m k)
            ∧ (handleRequest exampleLib exampleTwoItems exampleDeleteRequest).s.maxID
              = exampleTwoItems.maxID)) :=
  ⟨rfl, handleRequest_deleteItem exampleLib exampleTwoItems exampleDeleteRequest rfl⟩

/-- C3. Assume `AuthTimestamp` reports ok exactly when the timestamp carried by
the additional data is strictly greater than the current value, and returns
that timestamp. Then, after any sequence `earlier` of checks, the check admits
`ad` exactly when `ad` carries a timestamp strictly greater than the initial
`additionalDataTimestamp` and than the timestamp of every additional data
admitted before; a check that does not admit (rejection or error) leaves the
store unchanged and an admitting one stores the carried timestamp, so the stored
value never decreases; the admitted timestamps are strictly increasing, so no
timestamp is admitted twice. -/
theorem adCheck_admits_iff {AD : Type} (carried : AD → Option Int)
    (auth : AD → Int → Except String (Bool × Int)) (hauth : AuthSpec carried auth)
    (s : Store) (earlier : List AD) (ad : AD) :
    (admits (adCheck auth (adCheckAll auth s earlier) ad).2 = true ↔
      ∃ t, carried ad = some t ∧ s.additionalDataTimestamp < t
        ∧ ∀ ad2 ∈ admittedData auth s earlier, ∃ t2, carried ad2 = some t2 ∧ t2 < t)
    ∧ (admits (adCheck auth (adCheckAll auth s earlier) ad).2 = false →
        (adCheck auth (adCheckAll auth s earlier) ad).1 = adCheckAll auth s earlier)
    ∧ (admits (adCheck auth (adCheckAll auth s earlier) ad).2 = true →
        ∃ t, carried ad = some t
          ∧ (adCheck auth (adCheckAll auth s earlier) ad).1
            = { adCheckAll auth s earlier with additionalDataTimestamp := t })
    ∧ s.additionalDataTimestamp ≤ (adCheckAll auth s earlier).additionalDataTimestamp
    ∧ (adCheckAll auth s earlier).additionalDataTimestamp
        ≤ (adCheck auth (adCheckAll auth s earlier) ad).1.additionalDataTimestamp
    ∧ ((admittedData auth s (earlier ++ [ad])).filterMap carried).Pairwise (fun a b => a < b)
    ∧ ((admittedData auth s (earlier ++ [ad])).filterMap carried).length
        = (admittedData auth s (earlier ++ [ad])).length := by
  obtain ⟨h1, h2, h3⟩ := adCheckAll_timestamp carried auth hauth earlier s
  obtain ⟨h4, h5, _⟩ := admittedData_increasing carried auth hauth (earlier ++ [ad]) s
  refine ⟨?_, ?_, ?_, h1, ?_, h4, h5⟩
  · rcases adCheck_step carried auth hauth (adCheckAll auth s earlier) ad with
      ⟨ha, t, hct, hlt, _⟩ | ⟨ha, _, hno⟩
    · simp only [ha, true_iff]
      refine ⟨t, hct, by omega, ?_⟩
      intro ad2 hm2
      obtain ⟨t2, hc2, _, hle2⟩ := h2 ad2 hm2
      exact ⟨t2, hc2, by omega⟩
    · simp only [ha, Bool.false_eq_true, false_iff]
      rintro ⟨t, hct, hlt, hall⟩
      apply hno t hct
      rcases h3 with h3 | ⟨ad2, hm2, hc2⟩
      · omega
      · obtain ⟨t2, hc2b, hlt2⟩ := hall ad2 hm2
        rw [hc2] at hc2b
        have := Option.some.inj hc2b
        omega
  · intro hf
    rcases adCheck_step carried auth hauth (adCheckAll auth s earlier) ad with
      ⟨ha, _⟩ | ⟨_, hs, _⟩
    · rw [ha] at hf; exact absurd hf (by decide)
    · exact hs
  · intro ht
    rcases adCheck_step carried auth hauth (adCheckAll auth s earlier) ad with
      ⟨_, t, hct, _, hs⟩ | ⟨ha, _⟩
    · exact ⟨t, hct, hs⟩
    · rw [ha] at ht; exact absurd ht (by decide)
  · rcases adCheck_step carried auth hauth (adCheckAll auth s earlier) ad with
      ⟨_, t, _, hlt, hs⟩ | ⟨_, hs, _⟩
    · rw [hs]; exact le_of_lt hlt
    · rw [hs]

theorem adCheck_admits_iff_witness :
    AuthSpec (fun ad : Option Int => ad) exampleAuth
    ∧ ((admits (adCheck exampleAuth
            (adCheckAll exampleAuth exampleStore [some 100, some 150, none, some 150])
            (some 200)).2 = true ↔
          ∃ t, (fun ad : Option Int => ad) (some 200) = some t
            ∧ exampleStore.additionalDataTimestamp < t
            ∧ ∀ ad2 ∈ admittedData exampleAuth exampleStore
                [some 100, some 150, none, some 150],
              ∃ t2, (fun ad : Option Int => ad) ad2 = some t2 ∧ t2 < t)
      ∧ (admits (adCheck exampleAuth
            (adCheckAll exampleAuth exampleStore [some 100, some 150, none, some 150])
            (some 200)).2 = false →
          (adCheck exampleAuth
            (adCheckAll exampleAuth exampleStore [some 100, some 150, none, some 150])
            (some 200)).1
            = adCheckAll exampleAuth exampleStore [some 100, some 150, none, some 150])
      ∧ (admits (adCheck exampleAuth
            (adCheckAll exampleAuth exampleStore [some 100, some 150, none, some 150])
            (some 200)).2 = true →
          ∃ t, (fun ad : Option Int => ad) (some 200) = some t
            ∧ (adCheck exampleAuth
                (adCheckAll exampleAuth exampleStore [some 100, some 150, none, some 150])
                (some 200)).1
              = { adCheckAll exampleAuth exampleStore [some 100, some 150, none, some 150] with
                  additionalDataTimestamp := t })
      ∧ exampleStore.additionalDataTimestamp
          ≤ (adCheckAll exampleAuth exampleStore
              [some 100, some 150, none, some 150]).additionalDataTimestamp
      ∧ (adCheckAll exampleAuth exampleStore
            [some 100, some 150, none, some 150]).additionalDataTimestamp
          ≤ (adCheck exampleAuth
              (adCheckAll exampleAuth exampleStore [some 100, some 150, none, some 150])
              (some 200)).1.additionalDataTimestamp
      ∧ ((admittedData exampleAuth exampleStore
            ([some 100, some 150, none, some 150] ++ [some 200])).filterMap
            (fun ad : Option Int => ad)).Pairwise (fun a b => a < b)
      ∧ ((admittedData exampleAuth exampleStore
            ([some 100, some 150, none, some 150] ++ [some 200])).filterMap
            (fun ad : Option Int => ad)).length
          = (admittedData exampleAuth exampleStore
              ([some 100, some 150, none, some 150] ++ [some 200])).length) :=
  ⟨by intro ad cur; cases ad <;> simp [exampleAuth],
    adCheck_admits_iff (fun ad : Option Int => ad) exampleAuth
      (by intro ad cur; cases ad <;> simp [exampleAuth])
      exampleStore [some 100, some 150, none, some 150] (some 200)⟩

/-- C10. After `n` ticks of the send loop the cycle counter is `n mod 5`; tick
number `i` calls `randomiseAllItems` and then `sendAllItems` when `i` is a
multiple of 5 and calls only `sendAllItems` otherwise, so every tick calls
`sendAllItems` exactly once, after its randomise check, and `randomiseAllItems`
has been called `n / 5` times in all. The store follows these calls: the store
after the ticks is the initial store after exactly the registry calls
`loopOps`, and each tick takes the store of the tick before through
`randomiseAllItems` (on multiples of 5 only) and then through `sendAllItems`. -/
theorem runTicks_calls (L : Lib) (s : Store) (envs : List TickEnv) :
    (runTicks L (loopStart s) envs).updateCount = ((envs.length % 5 : Nat) : Int)
    ∧ (runTicks L (loopStart s) envs).log
      = (List.range envs.length).map (fun i : Nat =>
          if (i + 1) % 5 = 0 then [LoopCall.randomiseAllItems, LoopCall.sendAllItems]
          else [LoopCall.sendAllItems])
    ∧ randomiseCount (runTicks L (loopStart s) envs).log = envs.length / 5
    ∧ (∀ calls ∈ (runTicks L (loopStart s) envs).log,
        calls.count LoopCall.sendAllItems = 1
        ∧ calls.getLast? = some LoopCall.sendAllItems)
    ∧ (runTicks L (loopStart s) envs).s = applyOps L s (loopOps 1 envs)
    ∧ ∀ (pre : List TickEnv) (env : TickEnv) (post : List TickEnv),
        envs = pre ++ env :: post →
        (runTicks L (loopStart s) (pre ++ [env])).s
          = if (pre.length + 1) % 5 = 0
            then (sendAllItems env.send
              (randomiseAllItems L env.order env.rnd (runTicks L (loopStart s) pre).s)).s
            else (sendAllItems env.send (runTicks L (loopStart s) pre).s).s := by
  refine ⟨runTicks_updateCount L s envs, ?_, ?_, ?_, ?_, ?_⟩
  · induction envs using List.reverseRecOn with
    | nil => simp [runTicks, loopStart]
    | append_singleton envs env ih =>
      obtain ⟨_, h2, _⟩ := tick_step L (runTicks L (loopStart s) envs) env envs.length
        (runTicks_updateCount L s envs)
      rw [runTicks_append, List.length_append, List.length_singleton, h2, ih, List.range_succ,
        List.map_append, List.map_singleton]
  · induction envs using List.reverseRecOn with
    | nil => simp [runTicks, loopStart, randomiseCount]
    | append_singleton envs env ih =>
      obtain ⟨_, h2, _⟩ := tick_step L (runTicks L (loopStart s) envs) env envs.length
        (runTicks_updateCount L s envs)
      rw [runTicks_append, List.length_append, List.length_singleton, h2,
        randomiseCount_append, ih]
      by_cases h5 : (envs.length + 1) % 5 = 0
      · simp only [h5, if_true]
        have : List.count LoopCall.randomiseAllItems
            [LoopCall.randomiseAllItems, LoopCall.sendAllItems] = 1 := by decide
        omega
      · simp only [h5, if_false]
        have : List.count LoopCall.randomiseAllItems [LoopCall.sendAllItems] = 0 := by decide
        omega
  · induction envs using List.reverseRecOn with
    | nil => simp [runTicks, loopStart]
    | append_singleton envs env ih =>
      obtain ⟨_, h2, _⟩ := tick_step L (runTicks L (loopStart s) envs) env envs.length
        (runTicks_updateCount L s envs)
      intro calls hc
      rw [runTicks_append, h2, List.mem_append, List.mem_singleton] at hc
      rcases hc with hc | hc
      · exact ih calls hc
      · subst hc
        by_cases h5 : (envs.length + 1) % 5 = 0
        · simp only [h5, if_true]
          exact ⟨by decide, by decide⟩
        · simp only [h5, if_false]
          exact ⟨by decide, by decide⟩
  · induction envs using List.reverseRecOn with
    | nil => simp [runTicks, loopStart, loopOps, applyOps]
    | append_singleton envs env ih =>
      obtain ⟨_, _, h3⟩ := tick_step L (runTicks L (loopStart s) envs) env envs.length
        (runTicks_updateCount L s envs)
      have hidx : (1 + envs.length) % 5 = (envs.length + 1) % 5 := by rw [Nat.add_comm]
      rw [runTicks_append, h3, loopOps_append, applyOps_append, ← ih, hidx]
      by_cases h5 : (envs.length + 1) % 5 = 0
      · simp only [h5, if_true]
        rfl
      · simp only [h5, if_false]
        rfl
  · intro pre env post _
    rw [runTicks_append]
    exact (tick_step L (runTicks L (loopStart s) pre) env pre.length
      (runTicks_updateCount L s pre)).2.2

theorem runTicks_calls_witness :
    (runTicks exampleLib (loopStart exampleTwoItems) (exampleTicks 7)).updateCount = (((exampleTicks 7).length % 5 : Nat) : Int)
    ∧ (runTicks exampleLib (loopStart exampleTwoItems) (exampleTicks 7)).log
      = (List.range (exampleTicks 7).length).map (fun i : Nat =>
          if (i + 1) % 5 = 0 then [LoopCall.randomiseAllItems, LoopCall.sendAllItems]
          else [LoopCall.sendAllItems])
    ∧ randomiseCount (runTicks exampleLib (loopStart exampleTwoItems) (exampleTicks 7)).log = (exampleTicks 7).length / 5
    ∧ (∀ calls ∈ (runTicks exampleLib (loopStart exampleTwoItems) (exampleTicks 7)).log,
        calls.count LoopCall.sendAllItems = 1
        ∧ calls.getLast? = some LoopCall.sendAllItems)
    ∧ (runTicks exampleLib (loopStart exampleTwoItems) (exampleTicks 7)).s = applyOps exampleLib exampleTwoItems (loopOps 1 (exampleTicks 7))
    ∧ ∀ (pre : List TickEnv) (env : TickEnv) (post : List TickEnv),
        (exampleTicks 7) = pre ++ env :: post →
        (runTicks exampleLib (loopStart exampleTwoItems) (pre ++ [env])).s
          = if (pre.length + 1) % 5 = 0
            then (sendAllItems env.send
              (randomiseAllItems exampleLib env.order env.rnd (runTicks exampleLib (loopStart exampleTwoItems) pre).s)).s
            else (sendAllItems env.send (runTicks exampleLib (loopStart exampleTwoItems) pre).s).s :=
  runTicks_calls exampleLib exampleTwoItems (exampleTicks 7)

/-- C9. On a reachable store, with `range` visiting the keys in the order
`order` and draws in `[0,1)`, `randomiseAllItems` leaves the keys and the id
counter unchanged, keeps the `ID`, `Name` and `Error` of every record, gives the
record visited at position `i` the `i`-th draw as `Progress` (so a value in
`[0,1)`) and the rendering of that `Progress` times 100 as `Status`, and sets the
dirty flag; on an empty registry only the dirty flag changes. -/
theorem randomiseAllItems_records (L : Lib) (s : Store) (order : List Int) (rnd : Nat → ℚ)
    (hr : Reachable L s) (horder : order.Perm (mapKeys s.m))
    (hrnd : ∀ j, 0 ≤ rnd j ∧ rnd j < 1) :
    mapKeys (randomiseAllItems L order rnd s).m = mapKeys s.m
    ∧ (randomiseAllItems L order rnd s).maxID = s.maxID
    ∧ (∀ k sg, mapGet s.m k = some sg →
        ∃ sg2 i, mapGet (randomiseAllItems L order rnd s).m k = some sg2
          ∧ sg2.ID = sg.ID ∧ sg2.Name = sg.Name ∧ sg2.Error = sg.Error
          ∧ order[i]? = some k ∧ sg2.Progress = rnd i
          ∧ 0 ≤ sg2.Progress ∧ sg2.Progress < 1
          ∧ sg2.Status = L.sprintfPercent (L.mulFloat64 sg2.Progress 100))
    ∧ (∀ k, mapGet s.m k = none → mapGet (randomiseAllItems L order rnd s).m k = none)
    ∧ (randomiseAllItems L order rnd s).isUpdateRequired = true
    ∧ (s.m = [] → randomiseAllItems L order rnd s = { s with isUpdateRequired := true }) := by
  obtain ⟨hok, hkey⟩ := reachable_inv L s hr
  have hnd : order.Nodup := horder.nodup_iff.2 hok
  obtain ⟨h1, h2, h3⟩ := randomiseLoop_spec L rnd order 0 s.m hkey hnd
    (fun k hk => horder.subset hk)
  refine ⟨h1, rfl, ?_, ?_, rfl, ?_⟩
  · intro k sg hsg
    have hin : k ∈ order := by
      apply horder.symm.subset
      by_contra hn
      rw [← mapGet_eq_none_iff, hsg] at hn
      exact absurd hn (by simp)
    obtain ⟨i, hi⟩ := List.getElem?_of_mem hin
    have := h3 k i sg hi hsg
    rw [Nat.zero_add] at this
    exact ⟨randomised L sg (rnd i), i, this, rfl, rfl, rfl, hi, rfl, (hrnd i).1, (hrnd i).2, rfl⟩
  · intro k hk
    rw [mapGet_eq_none_iff] at hk ⊢
    show k ∉ mapKeys (randomiseLoop L rnd order 0 s.m)
    rw [h1]
    exact hk
  · intro hempty
    have : order = [] := by
      rw [hempty] at horder
      exact List.Perm.eq_nil horder
    subst this
    rfl

theorem randomiseAllItems_records_witness :
    Reachable exampleLib exampleTwoItems
    ∧ [2, 1].Perm (mapKeys exampleTwoItems.m)
    ∧ (∀ j, 0 ≤ (fun n : Nat => (1 : ℚ) / ((n : ℚ) + 2)) j
        ∧ (fun n : Nat => (1 : ℚ) / ((n : ℚ) + 2)) j < 1)
    ∧ (mapKeys (randomiseAllItems exampleLib [2, 1]
          (fun n : Nat => (1 : ℚ) / ((n : ℚ) + 2)) exampleTwoItems).m = mapKeys exampleTwoItems.m
      ∧ (randomiseAllItems exampleLib [2, 1]
          (fun n : Nat => (1 : ℚ) / ((n : ℚ) + 2)) exampleTwoItems).maxID = exampleTwoItems.maxID
      ∧ (∀ k sg, mapGet exampleTwoItems.m k = some sg →
          ∃ sg2 i, mapGet (randomiseAllItems exampleLib [2, 1]
              (fun n : Nat => (1 : ℚ) / ((n : ℚ) + 2)) exampleTwoItems).m k = some sg2
            ∧ sg2.ID = sg.ID ∧ sg2.Name = sg.Name ∧ sg2.Error = sg.Error
            ∧ ([2, 1] : List Int)[i]? = some k
            ∧ sg2.Progress = (fun n : Nat => (1 : ℚ) / ((n : ℚ) + 2)) i
            ∧ 0 ≤ sg2.Progress ∧ sg2.Progress < 1
            ∧ sg2.Status
              = exampleLib.sprintfPercent (exampleLib.mulFloat64 sg2.Progress 100))
      ∧ (∀ k, mapGet exampleTwoItems.m k = none →
          mapGet (randomiseAllItems exampleLib [2, 1]
            (fun n : Nat => (1 : ℚ) / ((n : ℚ) + 2)) exampleTwoItems).m k = none)
      ∧ (randomiseAllItems exampleLib [2, 1]
          (fun n : Nat => (1 : ℚ) / ((n : ℚ) + 2)) exampleTwoItems).isUpdateRequired = true
      ∧ (exampleTwoItems.m = [] →
          randomiseAllItems exampleLib [2, 1]
            (fun n : Nat => (1 : ℚ) / ((n : ℚ) + 2)) exampleTwoItems
          = { exampleTwoItems with isUpdateRequired := true })) :=
  have hrnd : ∀ j : Nat, 0 ≤ (fun n : Nat => (1 : ℚ) / ((n : ℚ) + 2)) j
      ∧ (fun n : Nat => (1 : ℚ) / ((n : ℚ) + 2)) j < 1 := by
    intro j
    have hpos : (0 : ℚ) < (j : ℚ) + 2 := by positivity
    constructor
    · positivity
    · show (1 : ℚ) / ((j : ℚ) + 2) < 1
      rw [div_lt_one hpos]
      have : (0 : ℚ) ≤ (j : ℚ) := Nat.cast_nonneg j
      linarith
  ⟨Reachable.newItem (Reachable.newItem (Reachable.NewStore _ _ _ _ _ _ _)), by decide, hrnd,
    randomiseAllItems_records exampleLib exampleTwoItems [2, 1]
      (fun n : Nat => (1 : ℚ) / ((n : ℚ) + 2))
      (Reachable.newItem (Reachable.newItem (Reachable.NewStore _ _ _ _ _ _ _))) (by decide)
      hrnd⟩

end GoBinary
